import Mathlib

/-!
Verification development for the `scripting-utils` repository.

We shallowly embed the three subsystems the specification makes claims
about — the priority-ordered `EventEmitter` (src/event-emitter.ts), the
item-hook per-tick dispatcher (the item-hook half of src/index.ts), and
the percentage-keyed `Timeline` scheduler (src/timeline.ts) — as pure,
executable Lean functions, and prove the specification's claims about
them.

Modelling conventions:
* JavaScript `Map` objects are modelled as association lists with the
  usual get/set/delete operations.
* JavaScript numbers that flow through ordering logic (priorities,
  fractions, durations, tick cursors) are modelled as `Rat`; where the
  code checks `Number.isFinite` we use an explicit `JsNum` type with
  `nan`/`inf`/`negInf` constructors.
* Consumer-supplied callbacks (event handlers, behaviour lifecycle
  methods, timeline event functions) are opaque to the library; they are
  modelled by their observable outcome: a label identifying the callback
  plus whether the call throws.  Invocations are recorded in an explicit
  log so that "the handler was invoked" is a statement about data.
* `throw`/`try`/`catch` become `Except` values or explicit error-log
  entries, following the source's catch blocks.
-/

namespace ScriptingUtils

/-! ## Association-list model of JavaScript `Map` -/
def mapGet {κ α : Type} [DecidableEq κ] : List (κ × α) → κ → Option α
  | [], _ => none
  | (k1, v) :: rest, k => if k1 = k then some v else mapGet rest k

def mapSet {κ α : Type} [DecidableEq κ] : List (κ × α) → κ → α → List (κ × α)
  | [], k, v => [(k, v)]
  | (k1, v1) :: rest, k, v =>
    if k1 = k then (k, v) :: rest else (k1, v1) :: mapSet rest k v

def mapDelete {κ α : Type} [DecidableEq κ] : List (κ × α) → κ → List (κ × α)
  | [], _ => []
  | (k1, v) :: rest, k =>
    if k1 = k then mapDelete rest k else (k1, v) :: mapDelete rest k

end ScriptingUtils

namespace EvEmitter

open ScriptingUtils

/-! ## EventEmitter (src/event-emitter.ts)

Handlers are identified by a `Nat` label; a handler-semantics function
`sem : Nat → Except Unit Nat` says, for each label, whether calling the
handler throws (`Except.error`) or returns a value (`Except.ok v`).
-/
structure InternalSubscriber where
  handler : Nat
  once : Bool
  priority : Rat
  active : Bool
  id : Nat
deriving DecidableEq, Repr

def defaultSub : InternalSubscriber := ⟨0, false, 0, false, 0⟩

structure EventEmitter where
  subscribers : List (String × List InternalSubscriber)
  idCounter : Nat
  isEmitting : List String
  emissionStack : List String
  maxEmissionDepth : Nat
deriving DecidableEq, Repr

def EventEmitter.empty : EventEmitter := ⟨[], 0, [], [], 100⟩

/-- The subscriber list currently stored for an event (empty when absent). -/
def subsOf (st : EventEmitter) (eventName : String) : List InternalSubscriber :=
  (mapGet st.subscribers eventName).getD []

/-- `eventSubscribers[mid]!.priority` (indexing is always in bounds at use sites). -/
def getPriorityAt (subs : List InternalSubscriber) (i : Int) : Rat :=
  (subs.getD i.toNat defaultSub).priority

/-- The `while (left <= right)` binary-search loop of `EventEmitter.on`:
`subs[mid].priority >= priority` moves `left` past `mid`, otherwise
`right` moves below `mid`; the loop returns the final `left`. -/
def bsearchLoop (subs : List InternalSubscriber) (p : Rat) (left right : Int) : Int :=
  if _h : left ≤ right then
    let mid := (left + right) / 2
    if p ≤ getPriorityAt subs mid then bsearchLoop subs p (mid + 1) right
    else bsearchLoop subs p left (mid - 1)
  else left
termination_by (right + 1 - left).toNat
decreasing_by
  · omega
  · omega

/-- `eventSubscribers.splice(k, 0, a)`. -/
def spliceInsert {α : Type} (l : List α) (k : Nat) (a : α) : List α :=
  l.take k ++ a :: l.drop k

/-- The four-branch insertion of `EventEmitter.on`: append when the new
priority is at most the last one, prepend when it exceeds the first one,
otherwise binary-search for the first strictly-smaller priority. -/
def insertSubscriber (subs : List InternalSubscriber) (nsub : InternalSubscriber) :
    List InternalSubscriber :=
  match subs with
  | [] => [nsub]
  | first :: rest =>
    let lastSub := (first :: rest).getLast (List.cons_ne_nil _ _)
    if nsub.priority ≤ lastSub.priority then (first :: rest) ++ [nsub]
    else if first.priority < nsub.priority then nsub :: first :: rest
    else
      spliceInsert (first :: rest)
        (bsearchLoop (first :: rest) nsub.priority 0 ((first :: rest).length - 1)).toNat nsub

/-- `EventEmitter.on`: allocate an id, build the subscriber, insert it in
priority position; returns the new state and the subscriber id. -/
def EventEmitter.on (st : EventEmitter) (eventName : String) (handler : Nat)
    (once : Bool) (priority : Rat) : EventEmitter × Nat :=
  let id := st.idCounter
  let sub : InternalSubscriber := ⟨handler, once, priority, true, id⟩
  let cur := (mapGet st.subscribers eventName).getD []
  let nsubs := insertSubscriber cur sub
  ({ st with subscribers := mapSet st.subscribers eventName nsubs, idCounter := id + 1 }, id)

/-- `EventEmitter.once` delegates to `on` with `once := true`. -/
def EventEmitter.onceOn (st : EventEmitter) (eventName : String) (handler : Nat)
    (priority : Rat) : EventEmitter × Nat :=
  st.on eventName handler true priority

/-- Outcome of the synchronous handler loop of `emit`: results pushed for
non-throwing handlers, an error report per throwing handler, the
invocation log (subscriber id, handler label), and the `toRemove` ids of
`once` subscribers. -/
structure HandlerPass where
  results : List Nat
  errors : Nat
  invoked : List (Nat × Nat)
  toRemove : List Nat
deriving DecidableEq, Repr

def runHandlersSync (sem : Nat → Except Unit Nat) :
    List InternalSubscriber → HandlerPass
  | [] => ⟨[], 0, [], []⟩
  | s :: rest =>
    let tail := runHandlersSync sem rest
    match sem s.handler with
    | Except.ok v =>
      ⟨v :: tail.results, tail.errors, (s.id, s.handler) :: tail.invoked,
        if s.once then s.id :: tail.toRemove else tail.toRemove⟩
    | Except.error _ =>
      ⟨tail.results, tail.errors + 1, (s.id, s.handler) :: tail.invoked,
        if s.once then s.id :: tail.toRemove else tail.toRemove⟩

/-- `cleanupOnceSubscribers`: drop the collected ids; delete the key when
the filtered list is empty. -/
def cleanupOnceSubscribers (m : List (String × List InternalSubscriber))
    (eventName : String) (toRemove : List Nat) : List (String × List InternalSubscriber) :=
  if toRemove.isEmpty then m
  else
    match mapGet m eventName with
    | none => m
    | some subs =>
      let filtered := subs.filter (fun s => ¬ s.id ∈ toRemove)
      if filtered.isEmpty then mapDelete m eventName else mapSet m eventName filtered

structure EmitResult where
  state : EventEmitter
  results : List Nat
  errorsReported : Nat
  invoked : List (Nat × Nat)
deriving DecidableEq, Repr

/-- `EventEmitter.emit`: guards (no subscribers / reentrant emission /
emission-stack depth), snapshot of active subscribers, handler loop with
per-handler catch, once-cleanup, and the `finally` restoring
`isEmitting` and the emission stack. -/
def EventEmitter.emit (sem : Nat → Except Unit Nat) (st : EventEmitter)
    (eventName : String) : EmitResult :=
  match mapGet st.subscribers eventName with
  | none => ⟨st, [], 0, []⟩
  | some subs =>
    if subs.isEmpty then ⟨st, [], 0, []⟩
    else if eventName ∈ st.isEmitting then ⟨st, [], 1, []⟩
    else if st.maxEmissionDepth ≤ st.emissionStack.length then ⟨st, [], 1, []⟩
    else
      let stIn : EventEmitter :=
        { st with isEmitting := eventName :: st.isEmitting,
                  emissionStack := st.emissionStack ++ [eventName] }
      let activeSubscribers := subs.filter (fun s => s.active)
      let pass := runHandlersSync sem activeSubscribers
      let cleaned := cleanupOnceSubscribers stIn.subscribers eventName pass.toRemove
      let stOut : EventEmitter :=
        { stIn with subscribers := cleaned,
                    isEmitting := stIn.isEmitting.erase eventName,
                    emissionStack := stIn.emissionStack.dropLast }
      ⟨stOut, pass.results, pass.errors, pass.invoked⟩

/-- The `Promise.allSettled` collection phase of `emitAsync`: values of
fulfilled handlers and the `handlerIndex` of each rejected one. -/
def settleAll (sem : Nat → Except Unit Nat) :
    List InternalSubscriber → Nat → List Nat × List Nat
  | [], _ => ([], [])
  | s :: rest, i =>
    let tail := settleAll sem rest (i + 1)
    match sem s.handler with
    | Except.ok v => (v :: tail.1, tail.2)
    | Except.error _ => (tail.1, i :: tail.2)

structure AsyncEmitResult where
  /-- Emitter state at the `await Promise.allSettled` point: once-cleanup
  already applied, `isEmitting`/`emissionStack` still holding the event. -/
  stateAtAwait : EventEmitter
  /-- Final state after the `finally` block. -/
  state : EventEmitter
  successful : List Nat
  failed : List Nat
  errorsReported : Nat
  invoked : List (Nat × Nat)
deriving DecidableEq, Repr

/-- `EventEmitter.emitAsync`: same guards and snapshot as `emit`; the
loop starts every handler (the async wrapper runs the handler body
synchronously), collects `once` ids, cleans them up *before* awaiting,
then settles all results, reporting each rejection to the error sink. -/
def EventEmitter.emitAsync (sem : Nat → Except Unit Nat) (st : EventEmitter)
    (eventName : String) : AsyncEmitResult :=
  match mapGet st.subscribers eventName with
  | none => ⟨st, st, [], [], 0, []⟩
  | some subs =>
    if subs.isEmpty then ⟨st, st, [], [], 0, []⟩
    else if eventName ∈ st.isEmitting then ⟨st, st, [], [], 1, []⟩
    else if st.maxEmissionDepth ≤ st.emissionStack.length then ⟨st, st, [], [], 1, []⟩
    else
      let stIn : EventEmitter :=
        { st with isEmitting := eventName :: st.isEmitting,
                  emissionStack := st.emissionStack ++ [eventName] }
      let activeSubscribers := subs.filter (fun s => s.active)
      let toRemove := (activeSubscribers.filter (fun s => s.once)).map (fun s => s.id)
      let invoked := activeSubscribers.map (fun s => (s.id, s.handler))
      let cleaned := cleanupOnceSubscribers stIn.subscribers eventName toRemove
      let stAwait : EventEmitter := { stIn with subscribers := cleaned }
      let settled := settleAll sem activeSubscribers 0
      let stOut : EventEmitter :=
        { stAwait with isEmitting := stAwait.isEmitting.erase eventName,
                       emissionStack := stAwait.emissionStack.dropLast }
      ⟨stAwait, stOut, settled.1, settled.2, settled.2.length, invoked⟩

def semConst : Nat → Except Unit Nat := fun _ => Except.ok 0

def stBlocked : EventEmitter :=
  ⟨[("e", [⟨0, false, 0, true, 0⟩])], 1, ["e"], ["e"], 100⟩

/-! ## Async settle-all accounting (C7) -/
/-- The value of a fulfilled handler result (never consulted for
rejected ones). -/
def okValue : Except Unit Nat → Nat
  | Except.ok v => v
  | Except.error _ => 0

def semParity : Nat → Except Unit Nat :=
  fun h => if h % 2 == 0 then Except.ok h else Except.error ()

def stThree : EventEmitter :=
  ⟨[("e", [⟨2, false, 3, true, 0⟩, ⟨3, false, 2, true, 1⟩, ⟨4, false, 1, true, 2⟩])],
    3, [], [], 100⟩

/-- The claim's description of the insertion position: after all
subscribers with priority at least `nsub.priority`, before the first
strictly-smaller one. -/
def stableInsert (subs : List InternalSubscriber) (nsub : InternalSubscriber) :
    List InternalSubscriber :=
  subs.takeWhile (fun s => nsub.priority ≤ s.priority)
    ++ nsub :: subs.dropWhile (fun s => nsub.priority ≤ s.priority)

/-- Priority-descending order with registration order (ascending id) on
ties: the dispatch order the claim describes. -/
def regOrder (a b : InternalSubscriber) : Prop :=
  b.priority < a.priority ∨ (b.priority = a.priority ∧ a.id < b.id)

/-- A sequence of `on`/`once` calls for one event, each giving
(handler label, once flag, priority). -/
def registerAll (st : EventEmitter) (eventName : String)
    (calls : List (Nat × Bool × Rat)) : EventEmitter :=
  calls.foldl (fun s c => (s.on eventName c.1 c.2.1 c.2.2).1) st

/-- The subscriber a call produces when it is assigned id `i`. -/
def mkSub (ic : Nat × (Nat × Bool × Rat)) : InternalSubscriber :=
  ⟨ic.2.1, ic.2.2.1, ic.2.2.2, true, ic.1⟩

/-! ## Once-subscriber semantics (C5) -/
/-- The ids stored for an event. -/
def idsOf (st : EventEmitter) (name : String) : List Nat :=
  (subsOf st name).map (fun s => s.id)

/-- Number of invocations of subscriber id `i` in an invocation log. -/
def cntId (i : Nat) (l : List (Nat × Nat)) : Nat :=
  (l.filter (fun pr => pr.1 = i)).length

/-- Ids of the active once-subscribers in the dispatch snapshot — the
`toRemove` set of a full pass. -/
def onceIds (st : EventEmitter) (name : String) : List Nat :=
  (((subsOf st name).filter (fun s => s.active)).filter (fun s => s.once)).map
    (fun s => s.id)

/-- The emitter after once-cleanup of a full pass. -/
def cleanState (st : EventEmitter) (name : String) : EventEmitter :=
  { st with subscribers := cleanupOnceSubscribers st.subscribers name (onceIds st name) }

/-- One emission call of the operation sequence: `true` means
`emitAsync`, `false` means `emit`; returns the post-call state and the
invocation log of the pass. -/
def stepOp (sem : Nat → Except Unit Nat) (st : EventEmitter) (op : Bool × String) :
    EventEmitter × List (Nat × Nat) :=
  if op.1 then
    let r := EventEmitter.emitAsync sem st op.2
    (r.state, r.invoked)
  else
    let r := EventEmitter.emit sem st op.2
    (r.state, r.invoked)

/-- The concatenated invocation logs of a sequence of emit/emitAsync
calls. -/
def runOpsInvoked (sem : Nat → Except Unit Nat) (st : EventEmitter) :
    List (Bool × String) → List (Nat × Nat)
  | [] => []
  | op :: rest => (stepOp sem st op).2 ++ runOpsInvoked sem (stepOp sem st op).1 rest

def stOnce : EventEmitter := ⟨[("e", [⟨5, true, 0, true, 0⟩])], 1, [], [], 100⟩

end EvEmitter

namespace ItemHook

open ScriptingUtils

/-! ## Item-hook dispatcher (the item-hook half of src/index.ts)

Behaviour instances (`HookedItem` subclasses) are consumer code, opaque
to the dispatcher; we model an instance by a label plus, for each
lifecycle callback, whether invoking it throws (and for `canUse`, its
return value).  Every callback invocation is recorded in the log, and
every `console.error`/`console.warn` call becomes a log entry, so the
claims about "invoked exactly once", "caught and logged" are statements
about the log. -/
structure ItemStack where
  typeId : String
deriving DecidableEq, Repr

structure Behavior where
  label : Nat
  onTickThrows : Bool
  onDeleteThrows : Bool
  canUseThrows : Bool
  canUseResult : Bool
  onStartUseThrows : Bool
  onStopUseThrows : Bool
  onHitEntityThrows : Bool
  onHitBlockThrows : Bool
  onBreakBlockThrows : Bool
  onHurtThrows : Bool
deriving DecidableEq, Repr

/-- A `HookedItemFactory`: constructing the instance may itself throw. -/
structure Factory where
  constructThrows : Bool
  behavior : Behavior
deriving DecidableEq, Repr

/-- `HookedItemInternalSharedFields`. -/
structure SharedFields where
  currentTick : Nat
  isUsing : Bool
  deleteOnNextTick : Bool
deriving DecidableEq, Repr

/-- `HookedItemWrapper` together with the context fields the dispatcher
reads back (`itemType`, `initialItemStack`, `initialSlotIndex`). -/
structure Wrapper where
  shared : SharedFields
  itemType : String
  initialItem : ItemStack
  initialSlotIndex : Nat
  factory : Factory
  inst : Behavior
deriving DecidableEq, Repr

/-- Host-provided per-player facts read by `onTickPlayer`:
validity, component presence, health, the main-hand item, the selected
slot, and whether reading the main-hand slot throws. -/
structure PlayerState where
  isValid : Bool
  hasEquippable : Bool
  hasHealth : Bool
  currentHealth : Rat
  hasInventory : Bool
  heldItem : Option ItemStack
  itemAccessThrows : Bool
  selectedSlotIndex : Nat
deriving DecidableEq, Repr

/-- Module state: `mainItemHookRegistry.factoriesByItemType` and
`hookedItemWrappersByPlayer` (players keyed by a `Nat` id). -/
structure HookState where
  registry : List (String × Factory)
  wrappers : List (Nat × Wrapper)
deriving DecidableEq, Repr

inductive HookEv where
  | onDeleteCalled (label : Nat)
  | onTickCalled (label : Nat)
  | canUseCalled (label : Nat)
  | onStartUseCalled (label : Nat)
  | onStopUseCalled (label : Nat)
  | onHitEntityCalled (label : Nat)
  | onHitBlockCalled (label : Nat)
  | onBreakBlockCalled (label : Nat)
  | onHurtCalled (label : Nat)
  | errorLogged
  | warnLogged
deriving DecidableEq, Repr

/-- `ItemHookRegistry.register`: throws (modelled as `Except.error`) when
a factory for the item type already exists, otherwise installs it. -/
def register (reg : List (String × Factory)) (itemType : String) (f : Factory) :
    Except String (List (String × Factory)) :=
  if (mapGet reg itemType).isSome then
    Except.error ("Item hook is already registered for " ++ itemType ++ ".")
  else
    Except.ok (mapSet reg itemType f)

/-- `ItemHookRegistry.unregister`. -/
def unregister (reg : List (String × Factory)) (itemType : String) :
    List (String × Factory) :=
  mapDelete reg itemType

/-- `deleteWrapper`: when no wrapper is passed, look it up; when one is
found, remove the map entry first, then call `onDelete` inside
`try`/`catch` (a throw is logged via `console.error`). -/
def deleteWrapper (st : HookState) (pid : Nat) (w? : Option Wrapper) :
    HookState × List HookEv :=
  let wrapper := match w? with
    | some w => some w
    | none => mapGet st.wrappers pid
  match wrapper with
  | none => (st, [])
  | some w =>
    ({ st with wrappers := mapDelete st.wrappers pid },
      HookEv.onDeleteCalled w.inst.label ::
        (if w.inst.onDeleteThrows then [HookEv.errorLogged] else []))

/-- `getItemStackSafely`: returns the main-hand item; a throw from the
component/slot access is caught, logged as a warning, and yields
`undefined`; a missing equippable component yields `undefined`. -/
def getItemStackSafely (ps : PlayerState) : Option ItemStack × List HookEv :=
  if ps.itemAccessThrows then (none, [HookEv.warnLogged])
  else if ¬ ps.hasEquippable then (none, [])
  else (ps.heldItem, [])

/-- `areItemsEquivalent`: both `undefined` compare identical; otherwise
equivalence is `typeId` equality. -/
def areItemsEquivalent (item1 item2 : Option ItemStack) : Bool :=
  match item1, item2 with
  | some a, some b => a.typeId == b.typeId
  | none, none => true
  | _, _ => false

/-- The `isHoldingSameItem` conjunction of `onTickPlayer`: recorded item
type matches the held item's type, recorded slot matches the selected
slot, and the initial and held stacks are equivalent. -/
def isHoldingSameItem (w : Wrapper) (itemStack : Option ItemStack) (slotIndex : Nat) : Bool :=
  (match itemStack with
    | some it => w.itemType == it.typeId
    | none => false)
  && (w.initialSlotIndex == slotIndex)
  && areItemsEquivalent (some w.initialItem) itemStack

/-- `onTickPlayer`: validity and component checks (teardown and skip on
failure), held-item comparison, teardown of a stale binding, creation of
a new binding when a factory matches (a throwing factory is caught,
logged, and aborts the call), then the guarded `onTick` invocation whose
throw is caught, logged, and flags the binding for deletion. -/
def onTickPlayer (st : HookState) (pid : Nat) (ps : PlayerState) :
    HookState × List HookEv :=
  if ¬ ps.isValid then deleteWrapper st pid none
  else
    let lastWrapper := mapGet st.wrappers pid
    if ¬ ps.hasEquippable then
      let r := deleteWrapper st pid lastWrapper
      (r.1, HookEv.warnLogged :: r.2)
    else if ¬ ps.hasHealth then
      let r := deleteWrapper st pid lastWrapper
      (r.1, HookEv.warnLogged :: r.2)
    else if ¬ ps.hasInventory then
      let r := deleteWrapper st pid lastWrapper
      (r.1, HookEv.warnLogged :: r.2)
    else if ¬ 0 < ps.currentHealth then deleteWrapper st pid lastWrapper
    else
      let itemRead := getItemStackSafely ps
      let itemStack := itemRead.1
      let holdingSame := match lastWrapper with
        | some w => isHoldingSameItem w itemStack ps.selectedSlotIndex
        | none => false
      let hookFactoryForCurrentItem : Option Factory :=
        if holdingSame then lastWrapper.map (fun w => w.factory)
        else match itemStack with
          | none => none
          | some it => mapGet st.registry it.typeId
      let shouldDeleteWrapper :=
        lastWrapper.isSome &&
          (!holdingSame || itemStack.isNone || hookFactoryForCurrentItem.isNone ||
            (match lastWrapper with
              | some w => w.shared.deleteOnNextTick
              | none => false))
      let afterDelete :=
        if shouldDeleteWrapper then
          let r := deleteWrapper st pid lastWrapper
          (r.1, r.2, (none : Option Wrapper))
        else (st, [], lastWrapper)
      let st1 := afterDelete.1
      let delLog := afterDelete.2.1
      let shouldCreateNewHook :=
        !holdingSame && itemStack.isSome && hookFactoryForCurrentItem.isSome
      if shouldCreateNewHook then
        -- `shouldCreateNewHook` guarantees both options are populated
        -- (the source reads them through non-null assertions); the
        -- fall-through arm below is unreachable.
        match itemStack, hookFactoryForCurrentItem with
        | some it, some f =>
        if f.constructThrows then
          (st1, itemRead.2 ++ delLog ++ [HookEv.errorLogged])
        else
          let newWrapper : Wrapper :=
            { shared := ⟨0, false, false⟩
              itemType := it.typeId
              initialItem := it
              initialSlotIndex := ps.selectedSlotIndex
              factory := f
              inst := f.behavior }
          let st2 : HookState := { st1 with wrappers := mapSet st1.wrappers pid newWrapper }
          -- tick phase on the newly created wrapper (an item is held here)
          if newWrapper.inst.onTickThrows then
            let wFlagged := { newWrapper with shared := { newWrapper.shared with deleteOnNextTick := true } }
            ({ st2 with wrappers := mapSet st2.wrappers pid wFlagged },
              itemRead.2 ++ delLog ++
                [HookEv.onTickCalled newWrapper.inst.label, HookEv.errorLogged])
          else
            let wTicked := { newWrapper with shared := { newWrapper.shared with currentTick := newWrapper.shared.currentTick + 1 } }
            ({ st2 with wrappers := mapSet st2.wrappers pid wTicked },
              itemRead.2 ++ delLog ++ [HookEv.onTickCalled newWrapper.inst.label])
        | _, _ => (st1, itemRead.2 ++ delLog)
      else
        -- tick phase on the retained wrapper, when present and an item is held
        match afterDelete.2.2, itemStack with
        | some w, some _ =>
          if w.inst.onTickThrows then
            let wFlagged := { w with shared := { w.shared with deleteOnNextTick := true } }
            ({ st1 with wrappers := mapSet st1.wrappers pid wFlagged },
              itemRead.2 ++ delLog ++
                [HookEv.onTickCalled w.inst.label, HookEv.errorLogged])
          else
            let wTicked := { w with shared := { w.shared with currentTick := w.shared.currentTick + 1 } }
            ({ st1 with wrappers := mapSet st1.wrappers pid wTicked },
              itemRead.2 ++ delLog ++ [HookEv.onTickCalled w.inst.label])
        | _, _ => (st1, itemRead.2 ++ delLog)

/-- The per-tick loop body over all players (the `runInterval` callback,
without the periodic-cleanup counter). -/
def onTickAll (st : HookState) : List (Nat × PlayerState) → HookState × List HookEv
  | [] => (st, [])
  | (pid, ps) :: rest =>
    let r := onTickPlayer st pid ps
    let tail := onTickAll r.1 rest
    (tail.1, r.2 ++ tail.2)

/-- The `playerLeave` subscriber. -/
def onPlayerLeave (st : HookState) (pid : Nat) : HookState × List HookEv :=
  deleteWrapper st pid none

/-- The `shutdown` subscriber: tear down every wrapper. -/
def onShutdown (st : HookState) : HookState × List HookEv :=
  (st.wrappers.map (fun p => p.1)).foldl
    (fun acc pid =>
      let r := deleteWrapper acc.1 pid none
      (r.1, acc.2 ++ r.2))
    (st, [])

/-- `performPeriodicCleanup`: tear down wrappers whose player is stale
(invalid or no longer in the active player set), per the host-provided
staleness predicate. -/
def performPeriodicCleanup (st : HookState) (isStale : Nat → Bool) :
    HookState × List HookEv :=
  ((st.wrappers.map (fun p => p.1)).filter isStale).foldl
    (fun acc pid =>
      let r := deleteWrapper acc.1 pid none
      (r.1, acc.2 ++ r.2))
    (st, [])

/-- The `itemStartUse` subscriber: guards (item present, wrapper exists,
matching type and slot, not already using), then `canUse` gating
`onStartUse` inside a catch that logs and resets `isUsing`. -/
def onItemStartUse (st : HookState) (pid : Nat) (itemStack : Option ItemStack)
    (slotIndex : Nat) : HookState × List HookEv :=
  match itemStack with
  | none => (st, [])
  | some it =>
    match mapGet st.wrappers pid with
    | none => (st, [])
    | some w =>
      if ¬ w.itemType = it.typeId then (st, [])
      else if ¬ w.initialSlotIndex = slotIndex then (st, [])
      else if w.shared.isUsing then (st, [])
      else
        let setUsing := fun (b : Bool) =>
          let wSet := { w with shared := { w.shared with isUsing := b } }
          { st with wrappers := mapSet st.wrappers pid wSet }
        if w.inst.canUseThrows then
          (setUsing false, [HookEv.canUseCalled w.inst.label, HookEv.errorLogged])
        else if ¬ w.inst.canUseResult then
          (st, [HookEv.canUseCalled w.inst.label])
        else if w.inst.onStartUseThrows then
          (setUsing false,
            [HookEv.canUseCalled w.inst.label,
              HookEv.onStartUseCalled w.inst.label, HookEv.errorLogged])
        else
          (setUsing true,
            [HookEv.canUseCalled w.inst.label,
              HookEv.onStartUseCalled w.inst.label])

/-- The `itemStopUse` subscriber: guards (matching type when an item is
present, matching slot, currently using), then clear `isUsing` and call
`onStopUse` inside a catch that logs and clears `isUsing`. -/
def onItemStopUse (st : HookState) (pid : Nat) (itemStack : Option ItemStack)
    (slotIndex : Nat) : HookState × List HookEv :=
  match mapGet st.wrappers pid with
  | none => (st, [])
  | some w =>
    if (match itemStack with
        | some it => decide (¬ w.itemType = it.typeId)
        | none => false) then (st, [])
    else if ¬ w.initialSlotIndex = slotIndex then (st, [])
    else if ¬ w.shared.isUsing then (st, [])
    else
      let wSet := { w with shared := { w.shared with isUsing := false } }
      let st1 : HookState := { st with wrappers := mapSet st.wrappers pid wSet }
      if w.inst.onStopUseThrows then
        (st1, [HookEv.onStopUseCalled w.inst.label, HookEv.errorLogged])
      else
        (st1, [HookEv.onStopUseCalled w.inst.label])

/-- The `entityHitEntity` subscriber: forward to `onHitEntity` inside a
catch that logs. -/
def onEntityHitEntity (st : HookState) (pid : Nat) : HookState × List HookEv :=
  match mapGet st.wrappers pid with
  | none => (st, [])
  | some w =>
    (st, HookEv.onHitEntityCalled w.inst.label ::
      (if w.inst.onHitEntityThrows then [HookEv.errorLogged] else []))

/-- The `entityHitBlock` subscriber. -/
def onEntityHitBlock (st : HookState) (pid : Nat) : HookState × List HookEv :=
  match mapGet st.wrappers pid with
  | none => (st, [])
  | some w =>
    (st, HookEv.onHitBlockCalled w.inst.label ::
      (if w.inst.onHitBlockThrows then [HookEv.errorLogged] else []))

/-- The `playerBreakBlock` subscriber. -/
def onPlayerBreakBlock (st : HookState) (pid : Nat) : HookState × List HookEv :=
  match mapGet st.wrappers pid with
  | none => (st, [])
  | some w =>
    (st, HookEv.onBreakBlockCalled w.inst.label ::
      (if w.inst.onBreakBlockThrows then [HookEv.errorLogged] else []))

/-- The `entityHurt` subscriber. -/
def onEntityHurt (st : HookState) (pid : Nat) : HookState × List HookEv :=
  match mapGet st.wrappers pid with
  | none => (st, [])
  | some w =>
    (st, HookEv.onHurtCalled w.inst.label ::
      (if w.inst.onHurtThrows then [HookEv.errorLogged] else []))

/-- Recognize `onDeleteCalled` log entries. -/
def isDeleteEv : HookEv → Bool
  | HookEv.onDeleteCalled _ => true
  | _ => false

/-- Recognize `errorLogged` log entries. -/
def isErrorEv : HookEv → Bool
  | HookEv.errorLogged => true
  | _ => false

/-! ## Registry registration (C8) -/
def sampleBehavior : Behavior :=
  ⟨0, false, false, false, true, false, false, false, false, false, false⟩

def sampleFactory : Factory := ⟨false, sampleBehavior⟩

/-- The log `deleteWrapper` produces for a given looked-up wrapper. -/
def delCoreLog : Option Wrapper → List HookEv
  | none => []
  | some w =>
    HookEv.onDeleteCalled w.inst.label ::
      (if w.inst.onDeleteThrows then [HookEv.errorLogged] else [])

/-- Store a wrapper at a player's key. -/
def setWrapper (st : HookState) (pid : Nat) (w : Wrapper) : HookState :=
  { st with wrappers := mapSet st.wrappers pid w }

/-- The wrapper with `shared.deleteOnNextTick := true`. -/
def flagDelete (w : Wrapper) : Wrapper :=
  { w with shared := { w.shared with deleteOnNextTick := true } }

/-- The wrapper with `shared.isUsing := b`. -/
def setUsingW (w : Wrapper) (b : Bool) : Wrapper :=
  { w with shared := { w.shared with isUsing := b } }

def behNew : Behavior :=
  ⟨8, false, false, false, true, false, false, false, false, false, false⟩

def facNew : Factory := ⟨false, behNew⟩

def wSword : Wrapper :=
  ⟨⟨3, false, false⟩, "pkg:sword", ⟨"pkg:sword"⟩, 0, sampleFactory, sampleBehavior⟩

def stSwitch : HookState := ⟨[("pkg:axe", facNew)], [(1, wSword)]⟩

def psAxe : PlayerState := ⟨true, true, true, 20, true, some ⟨"pkg:axe"⟩, false, 0⟩

def behTickThrow : Behavior :=
  ⟨9, true, false, false, true, false, false, false, false, false, false⟩

def facTickThrow : Factory := ⟨false, behTickThrow⟩

def wTickThrow : Wrapper :=
  ⟨⟨0, false, false⟩, "pkg:sword", ⟨"pkg:sword"⟩, 0, facTickThrow, behTickThrow⟩

def stTickThrow : HookState := ⟨[("pkg:sword", facTickThrow)], [(2, wTickThrow)]⟩

def psSword : PlayerState := ⟨true, true, true, 20, true, some ⟨"pkg:sword"⟩, false, 0⟩

end ItemHook

namespace TL

open ScriptingUtils

/-! ## Timeline (src/timeline.ts)

JavaScript numbers entering validation are modelled by `JsNum`
(`Number.isFinite` distinguishes the three non-finite values from finite
rationals).  A `TimelineRecord` entry is a parsed fraction key paired
with the mapped value, which is either a function — identified by a
label, plus whether calling it throws — or a non-callable value. -/
inductive JsNum where
  | nan
  | inf
  | negInf
  | fin (q : Rat)
deriving DecidableEq, Repr

def JsNum.isFinite : JsNum → Bool
  | JsNum.fin _ => true
  | _ => false

inductive TValue where
  | func (label : Nat) (throws : Bool)
  | notFunc
deriving DecidableEq, Repr

structure ProcessedEvent where
  tick : Int
  percentage : Rat
  executed : Bool
  label : Nat
  throws : Bool
deriving DecidableEq, Repr

structure Timeline where
  duration : Rat
  sortedEvents : List ProcessedEvent
  lastProcessedTick : Rat
deriving DecidableEq, Repr

inductive TimelineError where
  | badDuration
  | emptyRecord
  | badKey
  | outOfRange
  | duplicate
  | notAFunction
  | badTick
  | eventFailed
deriving DecidableEq, Repr

/-- The comparator of the constructor's sort: by tick, ties by
percentage ascending (total on the duplicate-free entries). -/
def eventLE (a b : ProcessedEvent) : Prop :=
  a.tick < b.tick ∨ (a.tick = b.tick ∧ a.percentage ≤ b.percentage)

instance : DecidableRel eventLE := fun a b =>
  inferInstanceAs (Decidable (a.tick < b.tick
    ∨ (a.tick = b.tick ∧ a.percentage ≤ b.percentage)))

/-- The `Object.entries(...).map(...)` validation pass: per entry check
finiteness, range, duplication against the seen set, and callability;
build the event with `tick = Math.floor(percentage * duration)`. -/
def buildEvents (duration : Rat) (seen : List Rat) :
    List (JsNum × TValue) → Except TimelineError (List ProcessedEvent)
  | [] => Except.ok []
  | (k, v) :: rest =>
    match k with
    | JsNum.fin p =>
      if p < 0 ∨ 1 < p then Except.error TimelineError.outOfRange
      else if p ∈ seen then Except.error TimelineError.duplicate
      else
        match v with
        | TValue.notFunc => Except.error TimelineError.notAFunction
        | TValue.func label throws =>
          match buildEvents duration (p :: seen) rest with
          | Except.error e => Except.error e
          | Except.ok evs =>
            Except.ok (⟨⌊p * duration⌋, p, false, label, throws⟩ :: evs)
    | _ => Except.error TimelineError.badKey

/-- The `Timeline` constructor: reject non-positive or non-finite
durations and empty records, validate every entry, then sort by
(tick, percentage). -/
def mkTimeline (duration : JsNum) (record : List (JsNum × TValue)) :
    Except TimelineError Timeline :=
  match duration with
  | JsNum.fin d =>
    if d ≤ 0 then Except.error TimelineError.badDuration
    else if record.isEmpty then Except.error TimelineError.emptyRecord
    else
      match buildEvents d [] record with
      | Except.error e => Except.error e
      | Except.ok evs =>
        Except.ok ⟨d, evs.insertionSort eventLE, -1⟩
  | _ => Except.error TimelineError.badDuration

/-- `Math.max(0, Math.min(tick, this.duration))`. -/
def clampTick (duration t : Rat) : Rat :=
  max 0 (min t duration)

/-- `Timeline.reset`. -/
def resetTimeline (tl : Timeline) : Timeline :=
  { tl with lastProcessedTick := -1,
            sortedEvents := tl.sortedEvents.map (fun e => { e with executed := false }) }

/-- The event loop of `Timeline.process`: break at the first event past
`currentTick`; fire unexecuted events past `lastProcessedTick`, marking
them executed; a throwing event function aborts the loop (its own
`executed` flag is not set, earlier mutations are kept).  Returns the
updated event list, the labels fired in order, and the abort flag. -/
def processEvents (last cur : Rat) :
    List ProcessedEvent → List ProcessedEvent × List Nat × Bool
  | [] => ([], [], false)
  | e :: es =>
    if cur < (e.tick : Rat) then (e :: es, [], false)
    else if ¬ e.executed ∧ last < (e.tick : Rat) then
      if e.throws then (e :: es, [], true)
      else
        let r := processEvents last cur es
        ({ e with executed := true } :: r.1, e.label :: r.2.1, r.2.2)
    else
      let r := processEvents last cur es
      (e :: r.1, r.2.1, r.2.2)

/-- `Timeline.process`: reject non-finite ticks; clamp; a clamped tick
before `lastProcessedTick` first resets; run the event loop; on success
record the clamped tick as `lastProcessedTick` (an aborting event throw
skips that update). -/
def processTimeline (tl : Timeline) (t : JsNum) :
    Timeline × List Nat × Bool :=
  match t with
  | JsNum.fin tq =>
    let cur := clampTick tl.duration tq
    let tl1 := if cur < tl.lastProcessedTick then resetTimeline tl else tl
    let r := processEvents tl1.lastProcessedTick cur tl1.sortedEvents
    if r.2.2 then ({ tl1 with sortedEvents := r.1 }, r.2.1, true)
    else ({ tl1 with sortedEvents := r.1, lastProcessedTick := cur }, r.2.1, false)
  | _ => (tl, [], true)

/-- Repeatedly call `process` with a sequence of finite ticks, collecting
the labels fired by each call. -/
def runTimeline (tl : Timeline) : List Rat → Timeline × List (List Nat)
  | [] => (tl, [])
  | t :: ts =>
    let r := processTimeline tl (JsNum.fin t)
    let rest := runTimeline r.1 ts
    (rest.1, r.2.1 :: rest.2)

/-! ## Timeline construction (C9) -/
/-- The fraction keys read as rationals (only consulted for records
whose keys are all finite). -/
def ratKeys (entries : List (JsNum × TValue)) : List Rat :=
  entries.map (fun kv => match kv.1 with
    | JsNum.fin p => p
    | _ => 0)

/-- The claim's description of a malformed constructor input:
non-positive or non-finite duration, empty mapping, a non-finite,
out-of-range or duplicated fraction key, or a non-callable mapped
value.  (Spec-side definition, to be compared with `mkTimeline`.) -/
def specMalformed (duration : JsNum) (record : List (JsNum × TValue)) : Bool :=
  (match duration with
    | JsNum.fin d => decide (d ≤ 0)
    | _ => true)
  || record.isEmpty
  || record.any (fun kv => ! kv.1.isFinite)
  || record.any (fun kv => match kv.1 with
      | JsNum.fin p => decide (p < 0) || decide (1 < p)
      | _ => false)
  || ! decide (record.map Prod.fst).Nodup
  || record.any (fun kv => match kv.2 with
      | TValue.notFunc => true
      | TValue.func _ _ => false)

/-- The cursor position after a sequence of clamped process calls. -/
def lastClamp (d last : Rat) : List Rat → Rat
  | [] => last
  | t :: ts => lastClamp d (clampTick d t) ts

/-- The labels each call of a forward sequence fires: those whose tick
lies in the half-open window between the previous and current clamped
cursor. -/
def windows (d : Rat) (evs : List ProcessedEvent) (last : Rat) :
    List Rat → List (List Nat)
  | [] => []
  | t :: ts =>
    (evs.filter (fun e => decide (last < (e.tick : Rat))
        && decide ((e.tick : Rat) ≤ clampTick d t))).map (fun e => e.label)
      :: windows d evs (clampTick d t) ts

instance : IsTotal ProcessedEvent eventLE :=
  ⟨by
    intro a b
    unfold eventLE
    rcases lt_trichotomy a.tick b.tick with h | h | h
    · exact Or.inl (Or.inl h)
    · rcases le_total a.percentage b.percentage with hp | hp
      · exact Or.inl (Or.inr ⟨h, hp⟩)
      · exact Or.inr (Or.inr ⟨h.symm, hp⟩)
    · exact Or.inr (Or.inl h)⟩

instance : IsTrans ProcessedEvent eventLE :=
  ⟨by
    intro a b c hab hbc
    unfold eventLE at *
    rcases hab with h1 | ⟨h1, h1p⟩ <;> rcases hbc with h2 | ⟨h2, h2p⟩
    · exact Or.inl (h1.trans h2)
    · exact Or.inl (h2 ▸ h1)
    · exact Or.inl (h1 ▸ h2)
    · exact Or.inr ⟨h1.trans h2, h1p.trans h2p⟩⟩

/-- A concrete three-event timeline: fractions 0, 1/2, 1 of duration 20. -/
def recW : List (JsNum × TValue) :=
  [(JsNum.fin 0, TValue.func 0 false),
   (JsNum.fin (1/2), TValue.func 1 false),
   (JsNum.fin 1, TValue.func 2 false)]

def tlW : Timeline :=
  ⟨20,
   [⟨0, 0, false, 0, false⟩, ⟨10, 1/2, false, 1, false⟩, ⟨20, 1, false, 2, false⟩],
   -1⟩

end TL

namespace ScriptingUtils

theorem mapGet_set_self {κ α : Type} [DecidableEq κ] (m : List (κ × α)) (k : κ) (v : α) :
    mapGet (mapSet m k v) k = some v := by
  induction m with
  | nil => simp [mapGet, mapSet]
  | cons p rest ih =>
    by_cases h : p.1 = k <;> simp [mapSet, mapGet, h, ih]

theorem mapGet_set_ne {κ α : Type} [DecidableEq κ] (m : List (κ × α)) (k q : κ) (v : α)
    (hne : q ≠ k) : mapGet (mapSet m k v) q = mapGet m q := by
  have hkq : ¬ k = q := fun h => hne h.symm
  induction m with
  | nil => simp [mapGet, mapSet, hkq]
  | cons p rest ih =>
    by_cases h : p.1 = k
    · simp [mapSet, mapGet, h, hkq]
    · simp only [mapSet, if_neg h, mapGet]
      by_cases h2 : p.1 = q <;> simp [h2, ih]

theorem mapGet_delete_self {κ α : Type} [DecidableEq κ] (m : List (κ × α)) (k : κ) :
    mapGet (mapDelete m k) k = none := by
  induction m with
  | nil => simp [mapGet, mapDelete]
  | cons p rest ih =>
    by_cases h : p.1 = k <;> simp [mapDelete, mapGet, h, ih]

theorem mapGet_delete_ne {κ α : Type} [DecidableEq κ] (m : List (κ × α)) (k q : κ)
    (hne : q ≠ k) : mapGet (mapDelete m k) q = mapGet m q := by
  have hkq : ¬ k = q := fun h => hne h.symm
  induction m with
  | nil => simp [mapGet, mapDelete]
  | cons p rest ih =>
    by_cases h : p.1 = k
    · have hpq : ¬ p.1 = q := by rw [h]; exact hkq
      simp [mapDelete, mapGet, h, hpq, hkq, ih]
    · by_cases h2 : p.1 = q <;> simp [mapDelete, mapGet, h, h2, hne, ih]

end ScriptingUtils

namespace EvEmitter

open ScriptingUtils

/-! ## Guard behaviour: reentrant / depth-limited emission (C6) -/
/-- C6: on an event with at least one subscriber, an `emit` or
`emitAsync` issued while that event is already being emitted, or while
the emission stack has at least `maxEmissionDepth` entries, invokes no
handler, reports one error to the error sink, and returns an empty
result with the emitter state unchanged; the depth ceiling defaults
to 100. -/
theorem emit_blocked_returns_empty (sem : Nat → Except Unit Nat) (st : EventEmitter)
    (name : String) (hsubs : subsOf st name ≠ [])
    (hblocked : name ∈ st.isEmitting ∨ st.maxEmissionDepth ≤ st.emissionStack.length) :
    EventEmitter.emit sem st name = ⟨st, [], 1, []⟩
    ∧ EventEmitter.emitAsync sem st name = ⟨st, st, [], [], 1, []⟩
    ∧ EventEmitter.empty.maxEmissionDepth = 100 := by
  unfold subsOf at hsubs
  rcases hget : mapGet st.subscribers name with _ | subs
  · rw [hget] at hsubs; simp at hsubs
  · rw [hget] at hsubs
    simp only [Option.getD_some] at hsubs
    have hne : subs.isEmpty = false := by
      cases subs <;> simp_all [List.isEmpty]
    rcases hblocked with hb | hb
    · constructor
      · simp [EventEmitter.emit, hget, hne, hb]
      · constructor
        · simp [EventEmitter.emitAsync, hget, hne, hb]
        · rfl
    · by_cases hin : name ∈ st.isEmitting
      · exact ⟨by simp [EventEmitter.emit, hget, hne, hin],
          by simp [EventEmitter.emitAsync, hget, hne, hin], rfl⟩
      · exact ⟨by simp [EventEmitter.emit, hget, hne, hin, hb],
          by simp [EventEmitter.emitAsync, hget, hne, hin, hb], rfl⟩

/-- Witness for C6 at a concrete reentrant state. -/
theorem emit_blocked_returns_empty_witness :
    (subsOf stBlocked "e" ≠ [] ∧ "e" ∈ stBlocked.isEmitting) ∧
      EventEmitter.emit semConst stBlocked "e" = ⟨stBlocked, [], 1, []⟩ :=
  ⟨⟨by decide, by decide⟩,
    (emit_blocked_returns_empty semConst stBlocked "e" (by decide) (Or.inl (by decide))).1⟩

theorem settleAll_successful (sem : Nat → Except Unit Nat) (l : List InternalSubscriber)
    (i : Nat) :
    (settleAll sem l i).1 =
      (l.filter (fun s => (sem s.handler).isOk)).map (fun s => okValue (sem s.handler)) := by
  induction l generalizing i with
  | nil => simp [settleAll]
  | cons s rest ih =>
    rcases h : sem s.handler with v | v <;>
      simp [settleAll, h, ih, List.filter_cons, Except.isOk, Except.toBool, okValue]

theorem settleAll_failed_length (sem : Nat → Except Unit Nat) (l : List InternalSubscriber)
    (i : Nat) :
    (settleAll sem l i).2.length =
      (l.filter (fun s => ! (sem s.handler).isOk)).length := by
  induction l generalizing i with
  | nil => simp [settleAll]
  | cons s rest ih =>
    rcases h : sem s.handler with v | v <;>
      simp [settleAll, h, ih, List.filter_cons, Except.isOk, Except.toBool]

theorem length_filter_add_length_filter_not {α : Type} (l : List α) (p : α → Bool) :
    (l.filter p).length + (l.filter (fun a => ! p a)).length = l.length := by
  induction l with
  | nil => simp
  | cons a rest ih =>
    by_cases h : p a = true <;> simp [List.filter_cons, h] <;> omega

/-- C7: an `emitAsync` that is not blocked by the reentrancy/depth guards
settles all N active handlers: `successful` and `failed` partition the N
outcomes (`successful.length + failed.length = N`, `failed.length = K`
for the K throwing handlers), every failure is reported to the error
sink, and the successful values are exactly those of the non-throwing
handlers in order. -/
theorem emitAsync_settles_all (sem : Nat → Except Unit Nat) (st : EventEmitter)
    (name : String) (hopen : ¬ name ∈ st.isEmitting)
    (hdepth : st.emissionStack.length < st.maxEmissionDepth) :
    (EventEmitter.emitAsync sem st name).successful.length
        + (EventEmitter.emitAsync sem st name).failed.length
      = (((subsOf st name).filter (fun s => s.active)).length)
    ∧ (EventEmitter.emitAsync sem st name).failed.length
      = (((subsOf st name).filter (fun s => s.active)).filter
          (fun s => ! (sem s.handler).isOk)).length
    ∧ (EventEmitter.emitAsync sem st name).errorsReported
      = (EventEmitter.emitAsync sem st name).failed.length
    ∧ (EventEmitter.emitAsync sem st name).successful
      = (((subsOf st name).filter (fun s => s.active)).filter
          (fun s => (sem s.handler).isOk)).map (fun s => okValue (sem s.handler)) := by
  have hnd : ¬ st.maxEmissionDepth ≤ st.emissionStack.length := by omega
  rcases hget : mapGet st.subscribers name with _ | subs
  · simp [EventEmitter.emitAsync, hget, subsOf]
  · rcases hemp : subs.isEmpty with _ | _
    · have hact := settleAll_successful sem (subs.filter (fun s => s.active)) 0
      have hfail := settleAll_failed_length sem (subs.filter (fun s => s.active)) 0
      have hpart := length_filter_add_length_filter_not
        (subs.filter (fun s => s.active)) (fun s => (sem s.handler).isOk)
      refine ⟨?_, ?_, ?_, ?_⟩
      · simp only [EventEmitter.emitAsync, hget, hemp, Bool.false_eq_true, if_false,
          hopen, if_neg hnd, subsOf, Option.getD_some]
        rw [hact, hfail]
        simpa using hpart
      · simp only [EventEmitter.emitAsync, hget, hemp, Bool.false_eq_true, if_false,
          hopen, if_neg hnd, subsOf, Option.getD_some]
        rw [hfail]
      · simp only [EventEmitter.emitAsync, hget, hemp, Bool.false_eq_true, if_false,
          hopen, if_neg hnd, subsOf, Option.getD_some]
      · simp only [EventEmitter.emitAsync, hget, hemp, Bool.false_eq_true, if_false,
          hopen, if_neg hnd, subsOf, Option.getD_some]
        rw [hact]
    · have : subs = [] := by simpa [List.isEmpty_iff] using hemp
      subst this
      simp [EventEmitter.emitAsync, hget, subsOf]

/-- Witness for C7: three active handlers, one of which rejects. -/
theorem emitAsync_settles_all_witness :
    (¬ "e" ∈ stThree.isEmitting ∧ stThree.emissionStack.length < stThree.maxEmissionDepth)
    ∧ (EventEmitter.emitAsync semParity stThree "e").successful.length
        + (EventEmitter.emitAsync semParity stThree "e").failed.length
      = (((subsOf stThree "e").filter (fun s => s.active)).length) :=
  ⟨⟨by decide, by decide⟩,
    (emitAsync_settles_all semParity stThree "e" (by decide) (by decide)).1⟩

/-! ## Priority-ordered insertion (C3) -/
theorem takeWhile_length_eq {α : Type} (d : α) (P : α → Bool) (l : List α) (k : Nat)
    (hk : k ≤ l.length)
    (h1 : ∀ i, i < k → P (l.getD i d) = true)
    (h2 : k < l.length → ¬ P (l.getD k d) = true) :
    (l.takeWhile P).length = k := by
  induction l generalizing k with
  | nil => simpa using (hk.antisymm (Nat.zero_le k)).symm
  | cons a t ih =>
    cases k with
    | zero =>
      have := h2 (by simp)
      simp only [List.getD_cons_zero] at this
      simp [List.takeWhile_cons, this]
    | succ k =>
      have ha := h1 0 (Nat.succ_pos k)
      simp only [List.getD_cons_zero] at ha
      simp only [List.takeWhile_cons, ha, if_true, List.length_cons]
      have := ih k (by simpa using hk)
        (fun i hi => by simpa using h1 (i + 1) (Nat.succ_lt_succ hi))
        (fun hlt => by simpa using h2 (Nat.succ_lt_succ hlt))
      omega

theorem take_takeWhile_length {α : Type} (P : α → Bool) (l : List α) :
    l.take ((l.takeWhile P).length) = l.takeWhile P := by
  induction l with
  | nil => simp
  | cons a t ih =>
    by_cases h : P a = true <;> simp [List.takeWhile_cons, h, ih]

theorem drop_takeWhile_length {α : Type} (P : α → Bool) (l : List α) :
    l.drop ((l.takeWhile P).length) = l.dropWhile P := by
  induction l with
  | nil => simp
  | cons a t ih =>
    by_cases h : P a = true <;> simp [List.takeWhile_cons, List.dropWhile_cons, h, ih]

theorem takeWhile_eq_self_of {α : Type} (P : α → Bool) (l : List α)
    (h : ∀ x ∈ l, P x = true) : l.takeWhile P = l := by
  induction l with
  | nil => rfl
  | cons a t ih =>
    simp only [List.takeWhile_cons, h a (by simp), if_true]
    rw [ih (fun x hx => h x (by simp [hx]))]

theorem dropWhile_eq_nil_of {α : Type} (P : α → Bool) (l : List α)
    (h : ∀ x ∈ l, P x = true) : l.dropWhile P = [] := by
  induction l with
  | nil => rfl
  | cons a t ih =>
    simp only [List.dropWhile_cons, h a (by simp), if_true]
    exact ih (fun x hx => h x (by simp [hx]))

/-- In a priority-descending list, the indexed priorities are antitone. -/
theorem sorted_getD_le (subs : List InternalSubscriber)
    (hs : subs.Pairwise (fun a b => b.priority ≤ a.priority))
    (i j : Nat) (hij : i ≤ j) (hj : j < subs.length) :
    (subs.getD j defaultSub).priority ≤ (subs.getD i defaultSub).priority := by
  rcases Nat.lt_or_ge i j with h | h
  · have hi : i < subs.length := Nat.lt_trans h hj
    rw [List.getD_eq_getElem subs defaultSub hj, List.getD_eq_getElem subs defaultSub hi]
    exact List.pairwise_iff_getElem.mp hs i j hi hj h
  · have : i = j := Nat.le_antisymm hij h
    subst this
    exact le_refl _

set_option maxHeartbeats 1000000 in
/-- On a priority-descending list, the binary-search loop of `on`
returns the length of the `priority ≥ p` prefix — the position of the
first strictly-smaller priority. -/
theorem bsearchLoop_spec (subs : List InternalSubscriber) (p : Rat)
    (hs : subs.Pairwise (fun a b => b.priority ≤ a.priority))
    (left right : Int)
    (h0 : 0 ≤ left) (h1 : left ≤ right + 1) (h2 : right < subs.length)
    (hL : ∀ i : Nat, (i : Int) < left → p ≤ (subs.getD i defaultSub).priority)
    (hR : ∀ i : Nat, right < (i : Int) → i < subs.length →
      ¬ p ≤ (subs.getD i defaultSub).priority) :
    bsearchLoop subs p left right
      = ((subs.takeWhile (fun s => p ≤ s.priority)).length : Int) := by
  suffices h : ∀ n (left right : Int), 0 ≤ left → left ≤ right + 1 →
      right < subs.length →
      (∀ i : Nat, (i : Int) < left → p ≤ (subs.getD i defaultSub).priority) →
      (∀ i : Nat, right < (i : Int) → i < subs.length →
        ¬ p ≤ (subs.getD i defaultSub).priority) →
      (right + 1 - left).toNat = n →
      bsearchLoop subs p left right
        = ((subs.takeWhile (fun s => p ≤ s.priority)).length : Int) by
    exact h _ left right h0 h1 h2 hL hR rfl
  clear h0 h1 h2 hL hR left right
  intro n
  induction n using Nat.strong_induction_on with
  | _ n ih =>
  intro left right h0 h1 h2 hL hR hn
  rw [bsearchLoop]
  by_cases hlr : left ≤ right
  · rw [dif_pos hlr]
    have hmid : left ≤ (left + right) / 2 ∧ (left + right) / 2 ≤ right := by omega
    by_cases hp : p ≤ getPriorityAt subs ((left + right) / 2)
    · rw [if_pos hp]
      refine ih ((right + 1 - ((left + right) / 2 + 1)).toNat) (by omega)
        ((left + right) / 2 + 1) right (by omega) (by omega) h2 ?_ hR rfl
      intro i hi
      by_cases hil : (i : Int) < left
      · exact hL i hil
      · -- left ≤ i ≤ mid: use antitonicity against the mid element
        have himid : i ≤ ((left + right) / 2).toNat := by omega
        have hmlen : ((left + right) / 2).toNat < subs.length := by omega
        refine le_trans ?_ (sorted_getD_le subs hs i ((left + right) / 2).toNat himid hmlen)
        unfold getPriorityAt at hp
        exact hp
    · rw [if_neg hp]
      refine ih (((left + right) / 2 - 1 + 1 - left).toNat) (by omega)
        left ((left + right) / 2 - 1) h0 (by omega) (by omega) hL ?_ rfl
      intro i hi hilen
      by_cases hieq : (i : Int) ≤ (left + right) / 2
      · have : i = ((left + right) / 2).toNat := by omega
        rw [this]
        unfold getPriorityAt at hp
        exact hp
      · -- i beyond mid: priorities only get smaller
        intro hcon
        have hmlen : ((left + right) / 2).toNat < subs.length := by omega
        have hle : ((left + right) / 2).toNat ≤ i := by omega
        have := sorted_getD_le subs hs ((left + right) / 2).toNat i hle hilen
        unfold getPriorityAt at hp
        exact hp (le_trans hcon this)
  · rw [dif_neg hlr]
    have hleft : left = right + 1 := by omega
    have hlen : (subs.takeWhile (fun s => p ≤ s.priority)).length = left.toNat := by
      refine takeWhile_length_eq defaultSub _ subs left.toNat (by omega) ?_ ?_
      · intro i hi
        simpa using hL i (by omega)
      · intro hlt
        simpa using hR left.toNat (by omega) hlt
    rw [hlen]
    omega

theorem sorted_last_le (l : List InternalSubscriber) (h : l ≠ [])
    (hs : l.Pairwise (fun a b => b.priority ≤ a.priority)) :
    ∀ x ∈ l, (l.getLast h).priority ≤ x.priority := by
  intro x hx
  obtain ⟨i, hi, rfl⟩ := List.mem_iff_getElem.mp hx
  rw [List.getLast_eq_getElem]
  rcases Nat.lt_or_ge i (l.length - 1) with hlt | hge
  · exact List.pairwise_iff_getElem.mp hs i (l.length - 1) hi (by omega) hlt
  · have : i = l.length - 1 := by omega
    subst this
    exact le_refl _

theorem insertSubscriber_eq_stable (subs : List InternalSubscriber)
    (nsub : InternalSubscriber)
    (hs : subs.Pairwise (fun a b => b.priority ≤ a.priority)) :
    insertSubscriber subs nsub = stableInsert subs nsub := by
  match subs with
  | [] => simp [insertSubscriber, stableInsert]
  | first :: rest =>
    by_cases hlastc :
        nsub.priority ≤ ((first :: rest).getLast (List.cons_ne_nil _ _)).priority
    · have hall : ∀ x ∈ first :: rest, decide (nsub.priority ≤ x.priority) = true := by
        intro x hx
        simp only [decide_eq_true_eq]
        exact le_trans hlastc (sorted_last_le _ (List.cons_ne_nil _ _) hs x hx)
      simp only [insertSubscriber, if_pos hlastc, stableInsert]
      rw [takeWhile_eq_self_of _ _ hall, dropWhile_eq_nil_of _ _ hall]
    · by_cases hfirst : first.priority < nsub.priority
      · simp only [insertSubscriber, if_neg hlastc, if_pos hfirst, stableInsert]
        have : ¬ nsub.priority ≤ first.priority := not_le.mpr hfirst
        simp [List.takeWhile_cons, List.dropWhile_cons, this]
      · simp only [insertSubscriber, if_neg hlastc, if_neg hfirst]
        have hres := bsearchLoop_spec (first :: rest) nsub.priority hs
          0 ((first :: rest).length - 1) (le_refl 0) (by simp; omega)
          (by simp)
          (fun i hi => by exfalso; omega)
          (fun i hi hilen => by
            exfalso
            simp only [List.length_cons] at hi hilen
            omega)
        rw [hres]
        simp only [Int.toNat_natCast, spliceInsert, stableInsert]
        rw [take_takeWhile_length, drop_takeWhile_length]

theorem regOrder_to_desc {a b : InternalSubscriber} (h : regOrder a b) :
    b.priority ≤ a.priority := by
  rcases h with h | ⟨h, _⟩
  · exact le_of_lt h
  · exact le_of_eq h

theorem dropWhile_priority_lt (p : Rat) (subs : List InternalSubscriber)
    (hs : subs.Pairwise (fun a b => b.priority ≤ a.priority)) :
    ∀ y ∈ subs.dropWhile (fun s => p ≤ s.priority), y.priority < p := by
  induction subs with
  | nil => simp
  | cons a t ih =>
    rw [List.pairwise_cons] at hs
    by_cases ha : p ≤ a.priority
    · simpa [List.dropWhile_cons, ha] using ih hs.2
    · have hdec : decide (p ≤ a.priority) = false := by
        simpa using ha
      simp only [List.dropWhile_cons, hdec, Bool.false_eq_true, if_false]
      intro y hy
      rcases List.mem_cons.mp hy with rfl | hyt
      · exact not_le.mp ha
      · exact lt_of_le_of_lt (hs.1 y hyt) (not_le.mp ha)

theorem stableInsert_pairwise (subs : List InternalSubscriber)
    (nsub : InternalSubscriber)
    (hs : subs.Pairwise regOrder)
    (hid : ∀ s ∈ subs, s.id < nsub.id) :
    (stableInsert subs nsub).Pairwise regOrder := by
  have hdesc : subs.Pairwise (fun a b => b.priority ≤ a.priority) :=
    hs.imp regOrder_to_desc
  unfold stableInsert
  rw [List.pairwise_append]
  refine ⟨List.Pairwise.sublist (List.takeWhile_sublist _) hs, ?_, ?_⟩
  · rw [List.pairwise_cons]
    refine ⟨?_, List.Pairwise.sublist (List.dropWhile_sublist _) hs⟩
    intro y hy
    exact Or.inl (dropWhile_priority_lt nsub.priority subs hdesc y hy)
  · intro x hx y hy
    have hxp : nsub.priority ≤ x.priority := by
      have := List.mem_takeWhile_imp hx
      simpa using this
    have hxs : x ∈ subs := (List.takeWhile_sublist _).subset hx
    rcases List.mem_cons.mp hy with rfl | hyd
    · rcases lt_or_eq_of_le hxp with h | h
      · exact Or.inl h
      · exact Or.inr ⟨h, hid x hxs⟩
    · have hyp : y.priority < nsub.priority :=
        dropWhile_priority_lt nsub.priority subs hdesc y hyd
      exact Or.inl (lt_of_lt_of_le hyp hxp)

theorem stableInsert_id_bound (subs : List InternalSubscriber)
    (nsub : InternalSubscriber) (bound : Nat)
    (hid : ∀ s ∈ subs, s.id < bound) (hn : nsub.id < bound) :
    ∀ s ∈ stableInsert subs nsub, s.id < bound := by
  intro s hsmem
  unfold stableInsert at hsmem
  rcases List.mem_append.mp hsmem with h | h
  · exact hid s ((List.takeWhile_sublist _).subset h)
  · rcases List.mem_cons.mp h with rfl | h2
    · exact hn
    · exact hid s ((List.dropWhile_sublist _).subset h2)

theorem stableInsert_perm (subs : List InternalSubscriber) (nsub : InternalSubscriber) :
    (stableInsert subs nsub).Perm (nsub :: subs) := by
  unfold stableInsert
  calc (subs.takeWhile (fun s => nsub.priority ≤ s.priority)
          ++ nsub :: subs.dropWhile (fun s => nsub.priority ≤ s.priority)).Perm
        (nsub :: (subs.takeWhile (fun s => nsub.priority ≤ s.priority)
          ++ subs.dropWhile (fun s => nsub.priority ≤ s.priority))) := List.perm_middle
    _ = nsub :: subs := by rw [List.takeWhile_append_dropWhile]

theorem on_subsOf (st : EventEmitter) (e : String) (h : Nat) (o : Bool) (p : Rat) :
    subsOf (st.on e h o p).1 e
      = insertSubscriber (subsOf st e) ⟨h, o, p, true, st.idCounter⟩
    ∧ (st.on e h o p).1.idCounter = st.idCounter + 1
    ∧ (st.on e h o p).1.isEmitting = st.isEmitting
    ∧ (st.on e h o p).1.emissionStack = st.emissionStack
    ∧ (st.on e h o p).1.maxEmissionDepth = st.maxEmissionDepth := by
  refine ⟨?_, rfl, rfl, rfl, rfl⟩
  simp [EventEmitter.on, subsOf, mapGet_set_self]

theorem registerAll_spec (e : String) (calls : List (Nat × Bool × Rat))
    (st : EventEmitter)
    (hwf : (subsOf st e).Pairwise regOrder
      ∧ ∀ s ∈ subsOf st e, s.id < st.idCounter) :
    ((subsOf (registerAll st e calls) e).Pairwise regOrder
      ∧ ∀ s ∈ subsOf (registerAll st e calls) e,
          s.id < (registerAll st e calls).idCounter)
    ∧ (subsOf (registerAll st e calls) e).Perm
        (subsOf st e ++ (List.enumFrom st.idCounter calls).map mkSub)
    ∧ (registerAll st e calls).idCounter = st.idCounter + calls.length
    ∧ (registerAll st e calls).isEmitting = st.isEmitting
    ∧ (registerAll st e calls).emissionStack = st.emissionStack
    ∧ (registerAll st e calls).maxEmissionDepth = st.maxEmissionDepth := by
  induction calls generalizing st with
  | nil =>
    simpa [registerAll] using hwf
  | cons c rest ih =>
    obtain ⟨hsub, hidc, hie, hes, hmd⟩ := on_subsOf st e c.1 c.2.1 c.2.2
    have hstep : registerAll st e (c :: rest)
        = registerAll (st.on e c.1 c.2.1 c.2.2).1 e rest := rfl
    have hins : subsOf (st.on e c.1 c.2.1 c.2.2).1 e
        = stableInsert (subsOf st e) ⟨c.1, c.2.1, c.2.2, true, st.idCounter⟩ := by
      rw [hsub]
      exact insertSubscriber_eq_stable _ _ (hwf.1.imp regOrder_to_desc)
    have hwf2 : (subsOf (st.on e c.1 c.2.1 c.2.2).1 e).Pairwise regOrder
        ∧ ∀ s ∈ subsOf (st.on e c.1 c.2.1 c.2.2).1 e,
            s.id < (st.on e c.1 c.2.1 c.2.2).1.idCounter := by
      rw [hins, hidc]
      exact ⟨stableInsert_pairwise _ _ hwf.1 hwf.2,
        stableInsert_id_bound _ _ _ (fun s hsm => Nat.lt_succ_of_lt (hwf.2 s hsm))
          (Nat.lt_succ_self _)⟩
    obtain ⟨hwf3, hperm3, hcount3, hie3, hes3, hmd3⟩ := ih _ hwf2
    rw [hstep]
    refine ⟨hwf3, ?_, ?_, ?_, ?_, ?_⟩
    · refine hperm3.trans ?_
      rw [hins, hidc]
      refine ((stableInsert_perm _ _).append_right _).trans ?_
      simp only [List.enumFrom, List.map_cons, List.cons_append]
      exact (List.perm_middle).symm
    · rw [hcount3, hidc]
      simp [List.length_cons]
      omega
    · rw [hie3, hie]
    · rw [hes3, hes]
    · rw [hmd3, hmd]

theorem runHandlersSync_invoked (sem : Nat → Except Unit Nat)
    (l : List InternalSubscriber) :
    (runHandlersSync sem l).invoked = l.map (fun s => (s.id, s.handler)) := by
  induction l with
  | nil => rfl
  | cons s rest ih =>
    rcases h : sem s.handler with v | v <;> simp [runHandlersSync, h, ih]

theorem emit_invoked (sem : Nat → Except Unit Nat) (st : EventEmitter) (name : String)
    (hopen : ¬ name ∈ st.isEmitting)
    (hdepth : st.emissionStack.length < st.maxEmissionDepth) :
    (EventEmitter.emit sem st name).invoked
      = ((subsOf st name).filter (fun s => s.active)).map (fun s => (s.id, s.handler)) := by
  have hnd : ¬ st.maxEmissionDepth ≤ st.emissionStack.length := by omega
  rcases hget : mapGet st.subscribers name with _ | subs
  · simp [EventEmitter.emit, hget, subsOf]
  · rcases hemp : subs.isEmpty with _ | _
    · simp only [EventEmitter.emit, hget, hemp, Bool.false_eq_true, if_false,
        hopen, if_neg hnd, subsOf, Option.getD_some]
      exact runHandlersSync_invoked sem _
    · have : subs = [] := by simpa [List.isEmpty_iff] using hemp
      subst this
      simp [EventEmitter.emit, hget, subsOf]

/-- C3: after any sequence of `on`/`once` calls for one event, folded
from the fresh emitter, the subscriber list is ordered by priority
descending with equal priorities in registration order (ids are
assigned in call order); a further subscription with priority `p` lands
after every subscriber with priority ≥ p and before the first one with
priority < p; and `emit` invokes exactly the active subscribers in list
order, hence in non-increasing priority order with registration-order
ties. -/
theorem emitter_priority_order (calls : List (Nat × Bool × Rat)) (e : String) :
    (subsOf (registerAll EventEmitter.empty e calls) e).Pairwise regOrder
    ∧ (subsOf (registerAll EventEmitter.empty e calls) e).Perm
        ((List.enumFrom 0 calls).map mkSub)
    ∧ (∀ h o p, subsOf ((registerAll EventEmitter.empty e calls).on e h o p).1 e
        = (subsOf (registerAll EventEmitter.empty e calls) e).takeWhile
            (fun s => p ≤ s.priority)
          ++ ⟨h, o, p, true, (registerAll EventEmitter.empty e calls).idCounter⟩
            :: (subsOf (registerAll EventEmitter.empty e calls) e).dropWhile
              (fun s => p ≤ s.priority))
    ∧ (∀ sem, (EventEmitter.emit sem (registerAll EventEmitter.empty e calls) e).invoked
        = ((subsOf (registerAll EventEmitter.empty e calls) e).filter
            (fun s => s.active)).map (fun s => (s.id, s.handler)))
    ∧ ((subsOf (registerAll EventEmitter.empty e calls) e).filter
        (fun s => s.active)).Pairwise regOrder := by
  have hwf0 : (subsOf EventEmitter.empty e).Pairwise regOrder
      ∧ ∀ s ∈ subsOf EventEmitter.empty e, s.id < EventEmitter.empty.idCounter := by
    simp [subsOf, EventEmitter.empty, mapGet]
  obtain ⟨⟨hpr, hid⟩, hperm, hcount, hie, hes, hmd⟩ :=
    registerAll_spec e calls EventEmitter.empty hwf0
  refine ⟨hpr, ?_, ?_, ?_, ?_⟩
  · simpa [subsOf, EventEmitter.empty, mapGet] using hperm
  · intro h o p
    rw [(on_subsOf _ e h o p).1,
      insertSubscriber_eq_stable _ _ (hpr.imp regOrder_to_desc)]
    rfl
  · intro sem
    refine emit_invoked sem _ e ?_ ?_
    · rw [hie]
      simp [EventEmitter.empty]
    · rw [hes, hmd]
      simp [EventEmitter.empty]
  · exact List.Pairwise.sublist (List.filter_sublist _) hpr

theorem runHandlersSync_toRemove (sem : Nat → Except Unit Nat)
    (l : List InternalSubscriber) :
    (runHandlersSync sem l).toRemove = (l.filter (fun s => s.once)).map (fun s => s.id) := by
  induction l with
  | nil => rfl
  | cons s rest ih =>
    rcases h : sem s.handler with v | v <;>
      rcases ho : s.once with _ | _ <;>
        simp [runHandlersSync, List.filter_cons, h, ho, ih]

theorem cleanup_other (m : List (String × List InternalSubscriber)) (e : String)
    (toRemove : List Nat) (n2 : String) (h : n2 ≠ e) :
    mapGet (cleanupOnceSubscribers m e toRemove) n2 = mapGet m n2 := by
  unfold cleanupOnceSubscribers
  rcases he : toRemove.isEmpty with _ | _
  · rcases hg : mapGet m e with _ | subs
    · simp [he, hg]
    · simp only [he, hg, Bool.false_eq_true, if_false]
      split
      · exact mapGet_delete_ne _ _ _ h
      · exact mapGet_set_ne _ _ _ _ h
  · simp [he]

theorem cleanup_self (m : List (String × List InternalSubscriber)) (e : String)
    (toRemove : List Nat) :
    ((mapGet (cleanupOnceSubscribers m e toRemove) e).getD [])
      = ((mapGet m e).getD []).filter (fun s => ¬ s.id ∈ toRemove) := by
  unfold cleanupOnceSubscribers
  rcases he : toRemove.isEmpty with _ | _
  · rcases hg : mapGet m e with _ | subs
    · simp [he, hg]
    · simp only [he, hg, Bool.false_eq_true, if_false]
      split
      · rename_i hcond
        rw [mapGet_delete_self]
        symm
        simpa [List.isEmpty_iff] using hcond
      · rw [mapGet_set_self]
        rfl
  · have : toRemove = [] := by simpa [List.isEmpty_iff] using he
    subst this
    simp

/-- `emit` either aborts with the state unchanged and nothing invoked
(no/empty subscribers, reentrancy, depth), or performs a full dispatch
pass over the active snapshot with once-cleanup applied. -/
theorem emit_shape (sem : Nat → Except Unit Nat) (st : EventEmitter) (name : String) :
    ((EventEmitter.emit sem st name).state = st
      ∧ (EventEmitter.emit sem st name).invoked = [])
    ∨ ((EventEmitter.emit sem st name).state = cleanState st name
      ∧ (EventEmitter.emit sem st name).invoked
        = ((subsOf st name).filter (fun s => s.active)).map
            (fun s => (s.id, s.handler))) := by
  rcases hget : mapGet st.subscribers name with _ | subs
  · exact Or.inl (by simp [EventEmitter.emit, hget])
  · rcases hemp : subs.isEmpty with _ | _
    · by_cases hin : name ∈ st.isEmitting
      · exact Or.inl (by simp [EventEmitter.emit, hget, hemp, hin])
      · by_cases hd : st.maxEmissionDepth ≤ st.emissionStack.length
        · exact Or.inl (by simp [EventEmitter.emit, hget, hemp, hin, hd])
        · refine Or.inr ⟨?_, ?_⟩
          · simp only [EventEmitter.emit, hget, hemp, Bool.false_eq_true, if_false,
              hin, if_neg hd, cleanState, onceIds, subsOf, Option.getD_some]
            rw [runHandlersSync_toRemove]
            simp [List.erase_cons_head, List.dropLast_concat]
          · simp only [EventEmitter.emit, hget, hemp, Bool.false_eq_true, if_false,
              hin, if_neg hd, subsOf, Option.getD_some]
            exact runHandlersSync_invoked sem _
    · have : subs = [] := by simpa [List.isEmpty_iff] using hemp
      subst this
      exact Or.inl (by simp [EventEmitter.emit, hget])

/-- The same dichotomy for `emitAsync`, also fixing the subscriber map
at the await point (once-cleanup already applied there). -/
theorem emitAsync_shape (sem : Nat → Except Unit Nat) (st : EventEmitter) (name : String) :
    ((EventEmitter.emitAsync sem st name).state = st
      ∧ (EventEmitter.emitAsync sem st name).stateAtAwait = st
      ∧ (EventEmitter.emitAsync sem st name).invoked = [])
    ∨ ((EventEmitter.emitAsync sem st name).state = cleanState st name
      ∧ (EventEmitter.emitAsync sem st name).stateAtAwait.subscribers
          = cleanupOnceSubscribers st.subscribers name (onceIds st name)
      ∧ (EventEmitter.emitAsync sem st name).invoked
        = ((subsOf st name).filter (fun s => s.active)).map
            (fun s => (s.id, s.handler))) := by
  rcases hget : mapGet st.subscribers name with _ | subs
  · exact Or.inl (by simp [EventEmitter.emitAsync, hget])
  · rcases hemp : subs.isEmpty with _ | _
    · by_cases hin : name ∈ st.isEmitting
      · exact Or.inl (by simp [EventEmitter.emitAsync, hget, hemp, hin])
      · by_cases hd : st.maxEmissionDepth ≤ st.emissionStack.length
        · exact Or.inl (by simp [EventEmitter.emitAsync, hget, hemp, hin, hd])
        · refine Or.inr ⟨?_, ?_, ?_⟩
          · simp only [EventEmitter.emitAsync, hget, hemp, Bool.false_eq_true, if_false,
              hin, if_neg hd, cleanState, onceIds, subsOf, Option.getD_some]
            simp [List.erase_cons_head, List.dropLast_concat]
          · simp only [EventEmitter.emitAsync, hget, hemp, Bool.false_eq_true, if_false,
              hin, if_neg hd, cleanState, onceIds, subsOf, Option.getD_some]
          · simp only [EventEmitter.emitAsync, hget, hemp, Bool.false_eq_true, if_false,
              hin, if_neg hd, cleanState, onceIds, subsOf, Option.getD_some]
    · have : subs = [] := by simpa [List.isEmpty_iff] using hemp
      subst this
      exact Or.inl (by simp [EventEmitter.emitAsync, hget])

theorem cntId_map (i : Nat) (l : List InternalSubscriber) :
    cntId i (l.map (fun s => (s.id, s.handler)))
      = ((l.map (fun s => s.id)).filter (fun x => x = i)).length := by
  induction l with
  | nil => rfl
  | cons s t ih =>
    by_cases h : s.id = i <;>
      simp [cntId, List.filter_cons, h] at ih ⊢ <;>
      simpa [cntId] using ih

theorem filter_eq_len_le_one (i : Nat) (l : List Nat) (hnd : l.Nodup) :
    (l.filter (fun x => x = i)).length ≤ 1 := by
  induction l with
  | nil => simp
  | cons a t ih =>
    rw [List.nodup_cons] at hnd
    by_cases h : a = i
    · subst h
      have hnil : t.filter (fun x => x = a) = [] := by
        rw [List.filter_eq_nil_iff]
        intro x hx
        simp only [decide_eq_true_eq]
        intro hxa
        exact hnd.1 (hxa ▸ hx)
      simp [List.filter_cons, hnil]
    · simpa [List.filter_cons, h] using ih hnd.2

theorem cnt_zero_of_absent (i : Nat) (l : List (Nat × Nat)) (ids : List Nat)
    (hsub : ∀ pr ∈ l, pr.1 ∈ ids) (habs : ¬ i ∈ ids) : cntId i l = 0 := by
  unfold cntId
  have : l.filter (fun pr => pr.1 = i) = [] := by
    rw [List.filter_eq_nil_iff]
    intro pr hpr
    simp only [decide_eq_true_eq]
    intro h
    exact habs (h ▸ hsub pr hpr)
  rw [this]
  rfl

/-- The sublist of ids surviving once-cleanup of a full pass. -/
theorem cleanState_subsOf_self (st : EventEmitter) (name : String) :
    subsOf (cleanState st name) name
      = (subsOf st name).filter (fun s => ¬ s.id ∈ onceIds st name) := by
  unfold cleanState subsOf
  exact cleanup_self st.subscribers name (onceIds st name)

theorem cleanState_subsOf_other (st : EventEmitter) (name m : String) (h : m ≠ name) :
    subsOf (cleanState st name) m = subsOf st m := by
  unfold cleanState subsOf
  rw [cleanup_other st.subscribers name (onceIds st name) m h]

theorem mem_onceIds (st : EventEmitter) (name : String) (s : InternalSubscriber)
    (hs : s ∈ (subsOf st name).filter (fun s => s.active)) (ho : s.once = true) :
    s.id ∈ onceIds st name := by
  unfold onceIds
  exact List.mem_map.mpr ⟨s, List.mem_filter.mpr ⟨hs, by simp [ho]⟩, rfl⟩

theorem removed_after_cleanup (st : EventEmitter) (name : String) (i : Nat)
    (honce : ∀ s ∈ subsOf st name, s.id = i → s.once = true)
    (hin : ∃ s ∈ (subsOf st name).filter (fun s => s.active), s.id = i) :
    ¬ i ∈ ((subsOf st name).filter (fun s => ¬ s.id ∈ onceIds st name)).map
      (fun s => s.id) := by
  obtain ⟨s1, hs1, hid1⟩ := hin
  have hs1mem : s1 ∈ subsOf st name := (List.mem_filter.mp hs1).1
  have ho1 : s1.once = true := honce s1 hs1mem hid1
  have hio : i ∈ onceIds st name := hid1 ▸ mem_onceIds st name s1 hs1 ho1
  intro hmem
  obtain ⟨s2, hs2, hid2⟩ := List.mem_map.mp hmem
  have := (List.mem_filter.mp hs2).2
  simp only [decide_eq_true_eq] at this
  exact this (hid2.symm ▸ hio)

theorem stepOp_shape (sem : Nat → Except Unit Nat) (st : EventEmitter) (op : Bool × String) :
    ((stepOp sem st op).1 = st ∧ (stepOp sem st op).2 = [])
    ∨ ((stepOp sem st op).1 = cleanState st op.2
      ∧ (stepOp sem st op).2
        = ((subsOf st op.2).filter (fun s => s.active)).map (fun s => (s.id, s.handler))) := by
  rcases ha : op.1 with _ | _
  · rcases emit_shape sem st op.2 with ⟨h1, h2⟩ | ⟨h1, h2⟩
    · exact Or.inl (by simp [stepOp, ha, h1, h2])
    · exact Or.inr (by simp [stepOp, ha, h1, h2])
  · rcases emitAsync_shape sem st op.2 with ⟨h1, _, h2⟩ | ⟨h1, _, h2⟩
    · exact Or.inl (by simp [stepOp, ha, h1, h2])
    · exact Or.inr (by simp [stepOp, ha, h1, h2])

theorem stepOp_invoked_ids (sem : Nat → Except Unit Nat) (st : EventEmitter)
    (op : Bool × String) :
    ∀ pr ∈ (stepOp sem st op).2, pr.1 ∈ idsOf st op.2 := by
  rcases stepOp_shape sem st op with ⟨_, h2⟩ | ⟨_, h2⟩
  · simp [h2]
  · rw [h2]
    intro pr hpr
    obtain ⟨s, hs, rfl⟩ := List.mem_map.mp hpr
    exact List.mem_map.mpr ⟨s, (List.mem_filter.mp hs).1, rfl⟩

theorem stepOp_other (sem : Nat → Except Unit Nat) (st : EventEmitter)
    (op : Bool × String) (m : String) (h : m ≠ op.2) :
    subsOf (stepOp sem st op).1 m = subsOf st m := by
  rcases stepOp_shape sem st op with ⟨h1, _⟩ | ⟨h1, _⟩
  · rw [h1]
  · rw [h1, cleanState_subsOf_other st op.2 m h]

theorem stepOp_self_sublist (sem : Nat → Except Unit Nat) (st : EventEmitter)
    (op : Bool × String) :
    (subsOf (stepOp sem st op).1 op.2).Sublist (subsOf st op.2) := by
  rcases stepOp_shape sem st op with ⟨h1, _⟩ | ⟨h1, _⟩
  · rw [h1]
  · rw [h1, cleanState_subsOf_self st op.2]
    exact List.filter_sublist _

theorem stepOp_cnt_le_one (sem : Nat → Except Unit Nat) (st : EventEmitter)
    (op : Bool × String) (i : Nat) (hnd : (idsOf st op.2).Nodup) :
    cntId i (stepOp sem st op).2 ≤ 1 := by
  rcases stepOp_shape sem st op with ⟨_, h2⟩ | ⟨_, h2⟩
  · simp [h2, cntId]
  · rw [h2, cntId_map]
    refine filter_eq_len_le_one i _ ?_
    refine List.Nodup.sublist ?_ hnd
    exact List.Sublist.map _ (List.filter_sublist _)

theorem stepOp_cases (sem : Nat → Except Unit Nat) (st : EventEmitter)
    (op : Bool × String) (i : Nat)
    (honce : ∀ s ∈ subsOf st op.2, s.id = i → s.once = true) :
    cntId i (stepOp sem st op).2 = 0 ∨ ¬ i ∈ idsOf (stepOp sem st op).1 op.2 := by
  rcases stepOp_shape sem st op with ⟨_, h2⟩ | ⟨h1, h2⟩
  · exact Or.inl (by simp [h2, cntId])
  · by_cases hmem : ∃ s ∈ (subsOf st op.2).filter (fun s => s.active), s.id = i
    · refine Or.inr ?_
      rw [h1]
      unfold idsOf
      rw [cleanState_subsOf_self st op.2]
      exact removed_after_cleanup st op.2 i honce hmem
    · refine Or.inl ?_
      rw [h2]
      unfold cntId
      have : (((subsOf st op.2).filter (fun s => s.active)).map
          (fun s => (s.id, s.handler))).filter (fun pr => pr.1 = i) = [] := by
        rw [List.filter_eq_nil_iff]
        intro pr hpr
        obtain ⟨s, hs, rfl⟩ := List.mem_map.mp hpr
        simp only [decide_eq_true_eq]
        intro hcon
        exact hmem ⟨s, hs, hcon⟩
      rw [this]
      rfl

theorem runOps_once_cnt (sem : Nat → Except Unit Nat) (n : String) (i : Nat) :
    ∀ (ops : List (Bool × String)) (st : EventEmitter),
    (∀ m, m ≠ n → ¬ i ∈ idsOf st m) →
    (((idsOf st n).Nodup
        ∧ ∀ s ∈ subsOf st n, s.id = i → s.once = true ∧ s.active = true)
      ∨ ¬ i ∈ idsOf st n) →
    cntId i (runOpsInvoked sem st ops) ≤ 1
    ∧ (¬ i ∈ idsOf st n → cntId i (runOpsInvoked sem st ops) = 0) := by
  intro ops
  induction ops with
  | nil => intro st h1 h2; simp [runOpsInvoked, cntId]
  | cons op rest ih =>
    intro st h1 h2
    have hcnt_app : cntId i (runOpsInvoked sem st (op :: rest))
        = cntId i (stepOp sem st op).2
          + cntId i (runOpsInvoked sem (stepOp sem st op).1 rest) := by
      simp [runOpsInvoked, cntId, List.filter_append]
    -- absence at any event name is preserved by a step
    have habs_step : ∀ m, ¬ i ∈ idsOf st m → ¬ i ∈ idsOf (stepOp sem st op).1 m := by
      intro m hm
      by_cases hmo : m = op.2
      · subst hmo
        intro hcon
        refine hm ?_
        unfold idsOf at hcon ⊢
        exact (List.Sublist.map _ (stepOp_self_sublist sem st op)).subset hcon
      · rw [idsOf, stepOp_other sem st op m hmo]
        exact hm
    have h1' : ∀ m, m ≠ n → ¬ i ∈ idsOf (stepOp sem st op).1 m :=
      fun m hm => habs_step m (h1 m hm)
    -- absence forces a zero count, whatever the state of the invariant
    have hsecond : ¬ i ∈ idsOf st n → cntId i (runOpsInvoked sem st (op :: rest)) = 0 := by
      intro habs0
      have hz0 : cntId i (stepOp sem st op).2 = 0 := by
        by_cases hop : op.2 = n
        · subst hop
          exact cnt_zero_of_absent i _ _ (stepOp_invoked_ids sem st op) habs0
        · exact cnt_zero_of_absent i _ _ (stepOp_invoked_ids sem st op) (h1 op.2 hop)
      have habs2 := habs_step n habs0
      obtain ⟨_, ht0⟩ := ih (stepOp sem st op).1 h1' (Or.inr habs2)
      rw [hcnt_app, hz0, ht0 habs2]
    refine ⟨?_, hsecond⟩
    rcases h2 with ⟨hnd, honce⟩ | habs
    · by_cases hop : op.2 = n
      · subst hop
        have hcase := stepOp_cases sem st op i (fun s hs hid => (honce s hs hid).1)
        rcases hcase with hz | hgone
        · -- the pass did not invoke the subscriber: invariant is preserved
          have hnd2 : (idsOf (stepOp sem st op).1 op.2).Nodup :=
            List.Nodup.sublist (List.Sublist.map _ (stepOp_self_sublist sem st op)) hnd
          have honce2 : ∀ s ∈ subsOf (stepOp sem st op).1 op.2, s.id = i →
              s.once = true ∧ s.active = true :=
            fun s hs hid => honce s ((stepOp_self_sublist sem st op).subset hs) hid
          obtain ⟨htail, _⟩ := ih (stepOp sem st op).1 h1' (Or.inl ⟨hnd2, honce2⟩)
          rw [hcnt_app, hz]
          simpa using htail
        · -- the subscriber was dispatched and removed: no later invocation
          obtain ⟨_, htail0⟩ := ih (stepOp sem st op).1 h1' (Or.inr hgone)
          have hstep := stepOp_cnt_le_one sem st op i hnd
          rw [hcnt_app, htail0 hgone]
          simpa using hstep
      · -- an emission of a different event never invokes the subscriber
        have hz : cntId i (stepOp sem st op).2 = 0 :=
          cnt_zero_of_absent i _ _ (stepOp_invoked_ids sem st op) (h1 op.2 hop)
        have heq : subsOf (stepOp sem st op).1 n = subsOf st n :=
          stepOp_other sem st op n (fun hc => hop hc.symm)
        have hnd2 : (idsOf (stepOp sem st op).1 n).Nodup := by
          rw [idsOf, heq]; exact hnd
        have honce2 : ∀ s ∈ subsOf (stepOp sem st op).1 n, s.id = i →
            s.once = true ∧ s.active = true := by
          rw [heq]; exact honce
        obtain ⟨htail, _⟩ := ih (stepOp sem st op).1 h1' (Or.inl ⟨hnd2, honce2⟩)
        rw [hcnt_app, hz]
        simpa using htail
    · rw [hsecond habs]
      exact Nat.zero_le 1

/-- C5: an active once-subscriber is invoked in at most one dispatch
pass across any sequence of `emit`/`emitAsync` calls (whatever the
handlers do, including throwing), it is gone from the subscriber list at
the end of any pass that includes it, and for `emitAsync` the removal
has already happened at the await point, before handler results are
awaited. -/
theorem once_subscriber_single_dispatch (sem : Nat → Except Unit Nat) :
    (∀ (st : EventEmitter) (n : String) (i : Nat) (ops : List (Bool × String)),
      (∀ m, m ≠ n → ¬ i ∈ idsOf st m) →
      (idsOf st n).Nodup →
      (∀ s ∈ subsOf st n, s.id = i → s.once = true ∧ s.active = true) →
      cntId i (runOpsInvoked sem st ops) ≤ 1)
    ∧ (∀ (st : EventEmitter) (name : String) (i : Nat),
      (∀ s ∈ subsOf st name, s.id = i → s.once = true) →
      ∀ hdl, (i, hdl) ∈ (EventEmitter.emit sem st name).invoked →
      ¬ i ∈ idsOf (EventEmitter.emit sem st name).state name)
    ∧ (∀ (st : EventEmitter) (name : String) (i : Nat),
      (∀ s ∈ subsOf st name, s.id = i → s.once = true) →
      ∀ hdl, (i, hdl) ∈ (EventEmitter.emitAsync sem st name).invoked →
      ¬ i ∈ idsOf (EventEmitter.emitAsync sem st name).state name)
    ∧ (∀ (st : EventEmitter) (name : String) (i : Nat),
      (∀ s ∈ subsOf st name, s.id = i → s.once = true) →
      ∀ hdl, (i, hdl) ∈ (EventEmitter.emitAsync sem st name).invoked →
      ¬ i ∈ idsOf (EventEmitter.emitAsync sem st name).stateAtAwait name) := by
  refine ⟨?_, ?_, ?_, ?_⟩
  · intro st n i ops h1 h2 h3
    exact (runOps_once_cnt sem n i ops st h1 (Or.inl ⟨h2, h3⟩)).1
  · intro st name i honce hdl hmem
    rcases emit_shape sem st name with ⟨h1, h2⟩ | ⟨h1, h2⟩
    · rw [h2] at hmem
      cases hmem
    · rw [h2] at hmem
      obtain ⟨s, hs, heq⟩ := List.mem_map.mp hmem
      obtain ⟨hid, -⟩ := Prod.mk.injEq _ _ _ _ ▸ heq
      rw [h1]
      unfold idsOf
      rw [cleanState_subsOf_self]
      exact removed_after_cleanup st name i honce ⟨s, hs, hid⟩
  · intro st name i honce hdl hmem
    rcases emitAsync_shape sem st name with ⟨h1, _, h2⟩ | ⟨h1, _, h2⟩
    · rw [h2] at hmem
      cases hmem
    · rw [h2] at hmem
      obtain ⟨s, hs, heq⟩ := List.mem_map.mp hmem
      obtain ⟨hid, -⟩ := Prod.mk.injEq _ _ _ _ ▸ heq
      rw [h1]
      unfold idsOf
      rw [cleanState_subsOf_self]
      exact removed_after_cleanup st name i honce ⟨s, hs, hid⟩
  · intro st name i honce hdl hmem
    rcases emitAsync_shape sem st name with ⟨_, h1, h2⟩ | ⟨_, h1, h2⟩
    · rw [h2] at hmem
      cases hmem
    · rw [h2] at hmem
      obtain ⟨s, hs, heq⟩ := List.mem_map.mp hmem
      obtain ⟨hid, -⟩ := Prod.mk.injEq _ _ _ _ ▸ heq
      unfold idsOf subsOf
      rw [h1, cleanup_self]
      exact removed_after_cleanup st name i honce ⟨s, hs, hid⟩

/-- Witness for C5 at its synchronous-removal clause: a once-subscriber
that a pass invokes is absent from the list afterwards. -/
theorem once_subscriber_single_dispatch_witness :
    ((∀ s ∈ subsOf stOnce "e", s.id = 0 → s.once = true)
      ∧ (0, 5) ∈ (EventEmitter.emit semConst stOnce "e").invoked)
    ∧ ¬ 0 ∈ idsOf (EventEmitter.emit semConst stOnce "e").state "e" :=
  ⟨⟨by decide, by decide⟩,
    (once_subscriber_single_dispatch semConst).2.1 stOnce "e" 0 (by decide) 5 (by decide)⟩

end EvEmitter

namespace ItemHook

open ScriptingUtils

/-- C8 counterexample: registering a factory for an item type that
already has one does *not* return normally to the caller —
`ItemHookRegistry.register` throws (`Except.error` here), refuting the
claim that no exception propagates to the caller of `register`. -/
theorem register_duplicate_counterexample :
    (register [("pkg:sword", sampleFactory)] "pkg:sword" sampleFactory).isOk = false := by
  rfl

/-- C8 (amended): registering a duplicate item type fails by throwing an
`Error` to the caller; the duplicate is not installed and the existing
registration is untouched (the thrown branch returns no new registry). -/
theorem register_duplicate_throws (reg : List (String × Factory)) (itemType : String)
    (f g : Factory) (h : mapGet reg itemType = some g) :
    register reg itemType f
      = Except.error ("Item hook is already registered for " ++ itemType ++ ".") := by
  unfold register
  rw [h]
  rfl

/-- Witness for the amended C8 at a concrete duplicate registration. -/
theorem register_duplicate_throws_witness :
    mapGet [("pkg:sword", sampleFactory)] "pkg:sword" = some sampleFactory
    ∧ register [("pkg:sword", sampleFactory)] "pkg:sword" sampleFactory
      = Except.error ("Item hook is already registered for " ++ "pkg:sword" ++ ".") :=
  ⟨by rfl,
    register_duplicate_throws [("pkg:sword", sampleFactory)] "pkg:sword"
      sampleFactory sampleFactory (by rfl)⟩

/-! ## Teardown: map removal precedes onDelete (C10) -/
theorem deleteWrapper_lookup_none (st : HookState) (pid : Nat) :
    mapGet (deleteWrapper st pid none).1.wrappers pid = none := by
  unfold deleteWrapper
  rcases h : mapGet st.wrappers pid with _ | w
  · simpa using h
  · simp [mapGet_delete_self]

theorem deleteWrapper_log (st : HookState) (pid : Nat) (w? : Option Wrapper) :
    ((deleteWrapper st pid w?).2.filter isDeleteEv).length ≤ 1 := by
  unfold deleteWrapper
  rcases w? with _ | w
  · rcases h : mapGet st.wrappers pid with _ | w2
    · simp
    · rcases h2 : w2.inst.onDeleteThrows with _ | _ <;> simp [h2, isDeleteEv]
  · rcases h2 : w.inst.onDeleteThrows with _ | _ <;> simp [h2, isDeleteEv]

theorem mapDelete_of_get_none {κ α : Type} [DecidableEq κ] (m : List (κ × α)) (k : κ)
    (h : mapGet m k = none) : mapDelete m k = m := by
  induction m with
  | nil => simp [mapDelete]
  | cons p rest ih =>
    by_cases hp : p.1 = k
    · simp [mapGet, hp] at h
    · simp only [mapGet, if_neg hp] at h
      simp [mapDelete, hp, ih h]

theorem deleteWrapper_eq_core (st : HookState) (pid : Nat) :
    deleteWrapper st pid none
      = ({ st with wrappers := mapDelete st.wrappers pid },
          delCoreLog (mapGet st.wrappers pid))
    ∧ deleteWrapper st pid (mapGet st.wrappers pid)
      = ({ st with wrappers := mapDelete st.wrappers pid },
          delCoreLog (mapGet st.wrappers pid)) := by
  rcases h : mapGet st.wrappers pid with _ | w
  · rw [mapDelete_of_get_none st.wrappers pid h]
    exact ⟨by simp [deleteWrapper, h, delCoreLog], by simp [deleteWrapper, h, delCoreLog]⟩
  · exact ⟨by simp [deleteWrapper, h, delCoreLog], by simp [deleteWrapper, h, delCoreLog]⟩

theorem deleteWrapper_registry (st : HookState) (pid : Nat) (w? : Option Wrapper) :
    (deleteWrapper st pid w?).1.registry = st.registry := by
  rcases w? with _ | w
  · rcases h : mapGet st.wrappers pid with _ | w2 <;> simp [deleteWrapper, h]
  · simp [deleteWrapper]

theorem deleteWrapper_frame (st : HookState) (pid : Nat) (w? : Option Wrapper)
    (q : Nat) (hq : q ≠ pid) :
    mapGet (deleteWrapper st pid w?).1.wrappers q = mapGet st.wrappers q := by
  rcases w? with _ | w
  · rcases h : mapGet st.wrappers pid with _ | w2 <;>
      simp [deleteWrapper, h, mapGet_delete_ne _ _ _ hq]
  · simp [deleteWrapper, mapGet_delete_ne _ _ _ hq]

set_option maxHeartbeats 4000000 in
theorem onTickPlayer_registry (st : HookState) (pid : Nat) (ps : PlayerState) :
    (onTickPlayer st pid ps).1.registry = st.registry := by
  by_cases hv : ps.isValid = true
  · by_cases he : ps.hasEquippable = true
    · by_cases hh : ps.hasHealth = true
      · by_cases hi : ps.hasInventory = true
        · by_cases hhp : 0 < ps.currentHealth
          · simp only [onTickPlayer, hv, he, hh, hi, hhp, not_true, not_lt]
            repeat' split <;>
              first
              | rfl
              | simp_all [deleteWrapper_registry]
              | skip
          · simp [onTickPlayer, hv, he, hh, hi, hhp, deleteWrapper_registry]
        · simp [onTickPlayer, hv, he, hh, hi, deleteWrapper_registry]
      · simp [onTickPlayer, hv, he, hh, deleteWrapper_registry]
    · simp [onTickPlayer, hv, he, deleteWrapper_registry]
  · simp [onTickPlayer, hv, deleteWrapper_registry]

set_option maxHeartbeats 4000000 in
theorem onTickPlayer_frame (st : HookState) (pid : Nat) (ps : PlayerState)
    (q : Nat) (hq : q ≠ pid) :
    mapGet (onTickPlayer st pid ps).1.wrappers q = mapGet st.wrappers q := by
  by_cases hv : ps.isValid = true
  · by_cases he : ps.hasEquippable = true
    · by_cases hh : ps.hasHealth = true
      · by_cases hi : ps.hasInventory = true
        · by_cases hhp : 0 < ps.currentHealth
          · simp only [onTickPlayer, hv, he, hh, hi, hhp, not_true, not_lt]
            repeat' split <;>
              first
              | rfl
              | simp_all [deleteWrapper_frame _ _ _ _ hq, mapGet_set_ne _ _ _ _ hq]
              | skip
          · simp [onTickPlayer, hv, he, hh, hi, hhp, deleteWrapper_frame _ _ _ _ hq]
        · simp [onTickPlayer, hv, he, hh, hi, deleteWrapper_frame _ _ _ _ hq]
      · simp [onTickPlayer, hv, he, hh, deleteWrapper_frame _ _ _ _ hq]
    · simp [onTickPlayer, hv, he, deleteWrapper_frame _ _ _ _ hq]
  · simp [onTickPlayer, hv, deleteWrapper_frame _ _ _ _ hq]

theorem getItemStackSafely_no_delete (ps : PlayerState) :
    (getItemStackSafely ps).2.filter isDeleteEv = [] := by
  unfold getItemStackSafely
  split_ifs <;> simp [isDeleteEv]

set_option maxHeartbeats 4000000 in
theorem onTickPlayer_deleteCount (st : HookState) (pid : Nat) (ps : PlayerState) :
    ((onTickPlayer st pid ps).2.filter isDeleteEv).length ≤ 1 := by
  by_cases hv : ps.isValid = true
  · by_cases he : ps.hasEquippable = true
    · by_cases hh : ps.hasHealth = true
      · by_cases hi : ps.hasInventory = true
        · by_cases hhp : 0 < ps.currentHealth
          · simp only [onTickPlayer, hv, he, hh, hi, hhp, not_true, not_lt]
            repeat' split <;>
              first
              | rfl
              | simp_all [List.filter_append, isDeleteEv, getItemStackSafely_no_delete,
                  deleteWrapper_log]
              | skip
          · simp [onTickPlayer, hv, he, hh, hi, hhp, deleteWrapper_log]
        · simp only [onTickPlayer, hv, he, hh, hi, not_true]
          simp [List.filter_cons, isDeleteEv, deleteWrapper_log]
      · simp only [onTickPlayer, hv, he, hh, not_true]
        simp [List.filter_cons, isDeleteEv, deleteWrapper_log]
    · simp only [onTickPlayer, hv, he, not_true]
      simp [List.filter_cons, isDeleteEv, deleteWrapper_log]
  · simp [onTickPlayer, hv, deleteWrapper_log]

/-- C10: tearing a binding down removes the player's map entry before
`onDelete` runs: afterwards the player has no binding (even when
`onDelete` throws — no hypothesis on the throw flag is needed), exactly
one `onDelete` fires when a binding existed (none otherwise), a repeated
teardown trigger is a no-op invoking nothing, and a single dispatcher
tick never fires `onDelete` more than once for a player. -/
theorem deleteWrapper_teardown_once (st : HookState) (pid : Nat) :
    mapGet (deleteWrapper st pid none).1.wrappers pid = none
    ∧ ((deleteWrapper st pid none).2.filter isDeleteEv).length
        = (if (mapGet st.wrappers pid).isSome then 1 else 0)
    ∧ deleteWrapper (deleteWrapper st pid none).1 pid none
        = ((deleteWrapper st pid none).1, [])
    ∧ (∀ ps, ((onTickPlayer st pid ps).2.filter isDeleteEv).length ≤ 1) := by
  refine ⟨deleteWrapper_lookup_none st pid, ?_, ?_, fun ps => onTickPlayer_deleteCount st pid ps⟩
  · rcases h : mapGet st.wrappers pid with _ | w
    · simp [deleteWrapper, h]
    · rcases h2 : w.inst.onDeleteThrows with _ | _ <;>
        simp [deleteWrapper, h, h2, isDeleteEv]
  · have hnone := deleteWrapper_lookup_none st pid
    rcases h : mapGet st.wrappers pid with _ | w
    · simp [deleteWrapper, h]
    · simp only [deleteWrapper, h] at hnone ⊢
      simp only [deleteWrapper, hnone]

/-- C1: when a player who passes the validity/component/health checks is
not holding the same tracked item as their existing binding, that
binding is torn down with its behavior's `onDelete` invoked exactly once
(and no other `onDelete` fires), and exactly one new binding is created
if and only if an item is held and a factory is registered for its type
(its instance coming from that factory); no binding remains when no
factory matches. -/
theorem itemhook_switch_dispatch (st : HookState) (pid : Nat) (ps : PlayerState)
    (w : Wrapper)
    (hw : mapGet st.wrappers pid = some w)
    (hv : ps.isValid = true) (he : ps.hasEquippable = true)
    (hh : ps.hasHealth = true) (hi : ps.hasInventory = true)
    (halive : 0 < ps.currentHealth)
    (hnothrow : ps.itemAccessThrows = false)
    (hdiff : isHoldingSameItem w ps.heldItem ps.selectedSlotIndex = false)
    (hfac : ∀ it f, ps.heldItem = some it → mapGet st.registry it.typeId = some f →
      f.constructThrows = false) :
    (onTickPlayer st pid ps).2.filter isDeleteEv = [HookEv.onDeleteCalled w.inst.label]
    ∧ ((mapGet (onTickPlayer st pid ps).1.wrappers pid).isSome
        ↔ ∃ it f, ps.heldItem = some it ∧ mapGet st.registry it.typeId = some f)
    ∧ (∀ it f, ps.heldItem = some it → mapGet st.registry it.typeId = some f →
        ∃ w2, mapGet (onTickPlayer st pid ps).1.wrappers pid = some w2
          ∧ w2.inst = f.behavior ∧ w2.itemType = it.typeId ∧ w2.factory = f
          ∧ w2.initialSlotIndex = ps.selectedSlotIndex) := by
  have hitemread : getItemStackSafely ps = (ps.heldItem, []) := by
    simp [getItemStackSafely, hnothrow, he]
  rcases hheld : ps.heldItem with _ | it
  · rw [hheld] at hdiff
    simp only [onTickPlayer, hv, he, hh, hi, halive, not_true, not_lt, hitemread, hheld,
      hw, hdiff, deleteWrapper]
    simp [isDeleteEv, mapGet_delete_self]
  · rw [hheld] at hdiff
    rcases hreg : mapGet st.registry it.typeId with _ | f
    · simp only [onTickPlayer, hv, he, hh, hi, halive, not_true, not_lt, hitemread, hheld,
        hw, hdiff, hreg, deleteWrapper]
      refine ⟨by simp [isDeleteEv], by simp [mapGet_delete_self, hreg], ?_⟩
      intro it1 f h1 h2
      rw [Option.some.inj h1] at hreg
      rw [hreg] at h2
      exact Option.noConfusion h2
    · have hct : f.constructThrows = false := hfac it f hheld hreg
      rcases htick : f.behavior.onTickThrows with _ | _ <;>
      · simp only [onTickPlayer, hv, he, hh, hi, halive, not_true, not_lt, hitemread,
          hheld, hw, hdiff, hreg, hct, htick, deleteWrapper]
        refine ⟨by simp [isDeleteEv, hct, htick], ?_, ?_⟩
        · exact iff_of_true (by simp [mapGet_set_self, hct, htick]) ⟨it, f, rfl, hreg⟩
        · intro it1 f1 h1 h2
          cases Option.some.inj h1
          rw [hreg] at h2
          cases h2
          simp [mapGet_set_self, hct, htick]

theorem onTickAll_frame (players : List (Nat × PlayerState)) (st : HookState) (q : Nat)
    (hq : ¬ q ∈ players.map Prod.fst) :
    mapGet (onTickAll st players).1.wrappers q = mapGet st.wrappers q := by
  induction players generalizing st with
  | nil => rfl
  | cons hd rest ih =>
    simp only [List.map_cons, List.mem_cons, not_or] at hq
    simp only [onTickAll]
    rw [ih _ hq.2, onTickPlayer_frame _ _ _ _ hq.1]

theorem onTickAll_registry (players : List (Nat × PlayerState)) (st : HookState) :
    (onTickAll st players).1.registry = st.registry := by
  induction players generalizing st with
  | nil => rfl
  | cons hd rest ih =>
    simp only [onTickAll]
    rw [ih, onTickPlayer_registry]

/-- Each listed player is processed from a state that agrees with the
initial one on the registry and on that player's own binding: one
player's behaviour (including a throwing callback) cannot change what
the dispatcher does for another player in the same tick. -/
theorem onTickAll_localized (players : List (Nat × PlayerState)) (st : HookState)
    (hnd : (players.map Prod.fst).Nodup) (pid : Nat) (ps : PlayerState)
    (hmem : (pid, ps) ∈ players) :
    ∃ st2 : HookState, st2.registry = st.registry
      ∧ mapGet st2.wrappers pid = mapGet st.wrappers pid
      ∧ mapGet (onTickAll st players).1.wrappers pid
          = mapGet (onTickPlayer st2 pid ps).1.wrappers pid := by
  induction players generalizing st with
  | nil => cases hmem
  | cons hd rest ih =>
    simp only [List.map_cons, List.nodup_cons] at hnd
    rcases List.mem_cons.mp hmem with heq | hrest
    · refine ⟨st, rfl, rfl, ?_⟩
      rw [← heq]
      simp only [onTickAll]
      refine onTickAll_frame rest _ pid ?_
      rw [← heq] at hnd
      exact hnd.1
    · have hpid_mem : pid ∈ rest.map Prod.fst := by
        exact List.mem_map.mpr ⟨(pid, ps), hrest, rfl⟩
      have hne : pid ≠ hd.1 := by
        intro h
        rw [h] at hpid_mem
        exact hnd.1 hpid_mem
      obtain ⟨st2, hreg, hent, hres⟩ :=
        ih (onTickPlayer st hd.1 hd.2).1 hnd.2 hrest
      refine ⟨st2, ?_, ?_, ?_⟩
      · rw [hreg, onTickPlayer_registry]
      · rw [hent, onTickPlayer_frame _ _ _ _ hne]
      · simpa only [onTickAll] using hres

/-- C2: every lifecycle callback the dispatcher invokes (factory
construction, `onTick`, `onDelete`, `canUse`, `onStartUse`,
`onStopUse`, `onHitEntity`, `onHitBlock`, `onBreakBlock`, `onHurt`)
runs inside an error boundary: a throw is caught and logged, the
dispatch function still returns the specified state.  A throwing
per-tick callback flags the binding for deletion, which the following
tick carries out, and one player's throwing callback cannot affect any
other player's processing in the same tick. -/
theorem itemhook_callback_exceptions_contained :
    -- (1) a throwing onTick on a retained binding: caught, logged, the
    -- binding flagged for deletion, and torn down on the next tick
    (∀ (st : HookState) (pid : Nat) (ps : PlayerState) (w : Wrapper),
      mapGet st.wrappers pid = some w →
      ps.isValid = true → ps.hasEquippable = true → ps.hasHealth = true →
      ps.hasInventory = true → 0 < ps.currentHealth →
      ps.itemAccessThrows = false →
      isHoldingSameItem w ps.heldItem ps.selectedSlotIndex = true →
      w.shared.deleteOnNextTick = false →
      w.inst.onTickThrows = true →
      onTickPlayer st pid ps
        = (setWrapper st pid (flagDelete w),
            [HookEv.onTickCalled w.inst.label, HookEv.errorLogged])
        ∧ mapGet (onTickPlayer (onTickPlayer st pid ps).1 pid ps).1.wrappers pid = none
        ∧ (onTickPlayer (onTickPlayer st pid ps).1 pid ps).2.filter isDeleteEv
            = [HookEv.onDeleteCalled w.inst.label])
    -- (2) a throwing factory: caught and logged, no binding installed
    ∧ (∀ (st : HookState) (pid : Nat) (ps : PlayerState) (it : ItemStack) (f : Factory),
      mapGet st.wrappers pid = none →
      ps.isValid = true → ps.hasEquippable = true → ps.hasHealth = true →
      ps.hasInventory = true → 0 < ps.currentHealth →
      ps.itemAccessThrows = false →
      ps.heldItem = some it →
      mapGet st.registry it.typeId = some f →
      f.constructThrows = true →
      onTickPlayer st pid ps = (st, [HookEv.errorLogged]))
    -- (3) a throwing onDelete: caught and logged, entry still removed
    ∧ (∀ (st : HookState) (pid : Nat) (w : Wrapper),
      mapGet st.wrappers pid = some w →
      w.inst.onDeleteThrows = true →
      deleteWrapper st pid none
        = ({ st with wrappers := mapDelete st.wrappers pid },
            [HookEv.onDeleteCalled w.inst.label, HookEv.errorLogged]))
    -- (4) a throwing canUse: caught and logged, use-state reset
    ∧ (∀ (st : HookState) (pid : Nat) (w : Wrapper) (it : ItemStack) (slot : Nat),
      mapGet st.wrappers pid = some w →
      w.itemType = it.typeId → w.initialSlotIndex = slot →
      w.shared.isUsing = false →
      w.inst.canUseThrows = true →
      onItemStartUse st pid (some it) slot
        = (setWrapper st pid (setUsingW w false),
            [HookEv.canUseCalled w.inst.label, HookEv.errorLogged]))
    -- (5) a throwing onStartUse: caught and logged, use-state reset
    ∧ (∀ (st : HookState) (pid : Nat) (w : Wrapper) (it : ItemStack) (slot : Nat),
      mapGet st.wrappers pid = some w →
      w.itemType = it.typeId → w.initialSlotIndex = slot →
      w.shared.isUsing = false →
      w.inst.canUseThrows = false → w.inst.canUseResult = true →
      w.inst.onStartUseThrows = true →
      onItemStartUse st pid (some it) slot
        = (setWrapper st pid (setUsingW w false),
            [HookEv.canUseCalled w.inst.label, HookEv.onStartUseCalled w.inst.label,
              HookEv.errorLogged]))
    -- (6) a throwing onStopUse: caught and logged, use-state cleared
    ∧ (∀ (st : HookState) (pid : Nat) (w : Wrapper) (slot : Nat),
      mapGet st.wrappers pid = some w →
      w.initialSlotIndex = slot →
      w.shared.isUsing = true →
      w.inst.onStopUseThrows = true →
      onItemStopUse st pid none slot
        = (setWrapper st pid (setUsingW w false),
            [HookEv.onStopUseCalled w.inst.label, HookEv.errorLogged]))
    -- (7) throwing hit/break/hurt callbacks: caught and logged
    ∧ (∀ (st : HookState) (pid : Nat) (w : Wrapper),
      mapGet st.wrappers pid = some w →
      (w.inst.onHitEntityThrows = true →
        onEntityHitEntity st pid
          = (st, [HookEv.onHitEntityCalled w.inst.label, HookEv.errorLogged]))
      ∧ (w.inst.onHitBlockThrows = true →
        onEntityHitBlock st pid
          = (st, [HookEv.onHitBlockCalled w.inst.label, HookEv.errorLogged]))
      ∧ (w.inst.onBreakBlockThrows = true →
        onPlayerBreakBlock st pid
          = (st, [HookEv.onBreakBlockCalled w.inst.label, HookEv.errorLogged]))
      ∧ (w.inst.onHurtThrows = true →
        onEntityHurt st pid
          = (st, [HookEv.onHurtCalled w.inst.label, HookEv.errorLogged])))
    -- (8) players are processed independently within a tick
    ∧ (∀ (players : List (Nat × PlayerState)) (st : HookState),
      (players.map Prod.fst).Nodup →
      ∀ pid ps, (pid, ps) ∈ players →
      ∃ st2 : HookState, st2.registry = st.registry
        ∧ mapGet st2.wrappers pid = mapGet st.wrappers pid
        ∧ mapGet (onTickAll st players).1.wrappers pid
            = mapGet (onTickPlayer st2 pid ps).1.wrappers pid) := by
  refine ⟨?_, ?_, ?_, ?_, ?_, ?_, ?_, onTickAll_localized⟩
  · intro st pid ps w hw hv he hh hi halive hnothrow hsame hflag htick
    have hitemread : getItemStackSafely ps = (ps.heldItem, []) := by
      simp [getItemStackSafely, hnothrow, he]
    rcases hheld : ps.heldItem with _ | it
    · rw [hheld] at hsame
      simp [isHoldingSameItem] at hsame
    · rw [hheld] at hsame
      have hfirst : onTickPlayer st pid ps
          = (setWrapper st pid (flagDelete w),
              [HookEv.onTickCalled w.inst.label, HookEv.errorLogged]) := by
        simp only [onTickPlayer, hv, he, hh, hi, halive, not_true, not_lt, hitemread,
          hheld, hw, hsame, hflag, htick, setWrapper, flagDelete]
        simp [hsame, hflag, htick]
      refine ⟨hfirst, ?_, ?_⟩
      · rw [hfirst]
        have hw2 : mapGet (setWrapper st pid (flagDelete w)).wrappers pid
            = some (flagDelete w) := mapGet_set_self _ _ _
        have hsame2 : isHoldingSameItem (flagDelete w) (some it) ps.selectedSlotIndex
            = true := hsame
        have hfd : (flagDelete w).shared.deleteOnNextTick = true := rfl
        simp only [onTickPlayer, hv, he, hh, hi, halive, not_true, not_lt, hitemread,
          hheld, hw2, hsame2, hfd, deleteWrapper]
        simp [mapGet_delete_self]
      · rw [hfirst]
        have hw2 : mapGet (setWrapper st pid (flagDelete w)).wrappers pid
            = some (flagDelete w) := mapGet_set_self _ _ _
        have hsame2 : isHoldingSameItem (flagDelete w) (some it) ps.selectedSlotIndex
            = true := hsame
        have hfd : (flagDelete w).shared.deleteOnNextTick = true := rfl
        have hfi : (flagDelete w).inst = w.inst := rfl
        simp only [onTickPlayer, hv, he, hh, hi, halive, not_true, not_lt, hitemread,
          hheld, hw2, hsame2, hfd, hfi, deleteWrapper]
        rcases hdt : w.inst.onDeleteThrows with _ | _ <;>
          simp [hdt, isDeleteEv]
  · intro st pid ps it f hw hv he hh hi halive hnothrow hheld hreg hct
    have hitemread : getItemStackSafely ps = (ps.heldItem, []) := by
      simp [getItemStackSafely, hnothrow, he]
    simp only [onTickPlayer, hv, he, hh, hi, halive, not_true, not_lt, hitemread,
      hheld, hw, hreg, hct]
    simp [hreg, hct]
  · intro st pid w hw hthrow
    simp [deleteWrapper, hw, hthrow]
  · intro st pid w it slot hw htype hslot husing hthrow
    simp [onItemStartUse, setWrapper, setUsingW, hw, htype, hslot, husing, hthrow]
  · intro st pid w it slot hw htype hslot husing hct hcr hthrow
    simp [onItemStartUse, setWrapper, setUsingW, hw, htype, hslot, husing, hct, hcr, hthrow]
  · intro st pid w slot hw hslot husing hthrow
    simp [onItemStopUse, setWrapper, setUsingW, hw, hslot, husing, hthrow]
  · intro st pid w hw
    refine ⟨fun h => ?_, fun h => ?_, fun h => ?_, fun h => ?_⟩ <;>
      simp [onEntityHitEntity, onEntityHitBlock, onPlayerBreakBlock, onEntityHurt, hw, h]

/-- Witness for C1: a player bound to a sword behaviour switches to an
axe with a registered factory — the sword binding fires `onDelete` once. -/
theorem itemhook_switch_dispatch_witness :
    (mapGet stSwitch.wrappers 1 = some wSword
      ∧ isHoldingSameItem wSword psAxe.heldItem psAxe.selectedSlotIndex = false
      ∧ (0 : Rat) < psAxe.currentHealth)
    ∧ (onTickPlayer stSwitch 1 psAxe).2.filter isDeleteEv
        = [HookEv.onDeleteCalled wSword.inst.label] := by
  refine ⟨⟨rfl, by decide, by decide⟩, ?_⟩
  have h := itemhook_switch_dispatch stSwitch 1 psAxe wSword rfl rfl rfl rfl rfl
    (by decide) rfl (by decide)
    (by
      intro it f h1 h2
      have h1b : some (ItemStack.mk "pkg:axe") = some it := h1
      cases Option.some.inj h1b
      have h3 : some facNew = some f := h2
      cases Option.some.inj h3
      rfl)
  exact h.1

/-- Witness for C2 at its first clause: a held item whose behaviour
throws in `onTick` gets the error logged and the binding flagged. -/
theorem itemhook_callback_exceptions_contained_witness :
    (mapGet stTickThrow.wrappers 2 = some wTickThrow
      ∧ isHoldingSameItem wTickThrow psSword.heldItem psSword.selectedSlotIndex = true
      ∧ wTickThrow.shared.deleteOnNextTick = false
      ∧ wTickThrow.inst.onTickThrows = true)
    ∧ onTickPlayer stTickThrow 2 psSword
        = (setWrapper stTickThrow 2 (flagDelete wTickThrow),
            [HookEv.onTickCalled wTickThrow.inst.label, HookEv.errorLogged]) :=
  ⟨⟨rfl, by decide, rfl, rfl⟩,
    (itemhook_callback_exceptions_contained.1 stTickThrow 2 psSword wTickThrow rfl rfl
      rfl rfl rfl (by decide) rfl (by decide) rfl rfl).1⟩

end ItemHook

namespace TL

open ScriptingUtils

theorem buildEvents_isOk (d : Rat) (entries : List (JsNum × TValue)) :
    ∀ seen : List Rat,
    (buildEvents d seen entries).isOk = true ↔
      ((∀ kv ∈ entries, kv.1.isFinite = true)
        ∧ (∀ kv ∈ entries, ∀ p : Rat, kv.1 = JsNum.fin p → ¬ (p < 0 ∨ 1 < p))
        ∧ (∀ kv ∈ entries, kv.2 ≠ TValue.notFunc)
        ∧ (ratKeys entries).Nodup
        ∧ (∀ q ∈ ratKeys entries, ¬ q ∈ seen)) := by
  induction entries with
  | nil =>
    intro seen
    simp [buildEvents, ratKeys, Except.isOk, Except.toBool]
  | cons kv rest ih =>
    intro seen
    obtain ⟨k, v⟩ := kv
    match k with
    | JsNum.nan =>
      simp [buildEvents, Except.isOk, Except.toBool, JsNum.isFinite]
    | JsNum.inf =>
      simp [buildEvents, Except.isOk, Except.toBool, JsNum.isFinite]
    | JsNum.negInf =>
      simp [buildEvents, Except.isOk, Except.toBool, JsNum.isFinite]
    | JsNum.fin p =>
      by_cases hrange : p < 0 ∨ 1 < p
      · simp only [buildEvents, if_pos hrange]
        simp only [Except.isOk, Except.toBool, Bool.false_eq_true, false_iff]
        intro h
        exact h.2.1 (JsNum.fin p, v) (by simp) p rfl hrange
      · by_cases hseen : p ∈ seen
        · simp only [buildEvents, if_neg hrange, if_pos hseen]
          simp only [Except.isOk, Except.toBool, Bool.false_eq_true, false_iff]
          intro ⟨_, _, _, _, hdisj⟩
          exact hdisj p (by simp [ratKeys]) hseen
        · match v with
          | TValue.notFunc =>
            simp [buildEvents, if_neg hrange, if_neg hseen, Except.isOk, Except.toBool]
          | TValue.func lbl thr =>
            have hrec := ih (p :: seen)
            simp only [buildEvents, if_neg hrange, if_neg hseen]
            constructor
            · intro hok
              have : (buildEvents d (p :: seen) rest).isOk = true := by
                rcases hb : buildEvents d (p :: seen) rest with err | evs
                · rw [hb] at hok
                  simp [Except.isOk, Except.toBool] at hok
                · simp [Except.isOk, Except.toBool]
              obtain ⟨ha, hb2, hc, hd2, he⟩ := hrec.mp this
              refine ⟨?_, ?_, ?_, ?_, ?_⟩
              · intro kv2 hkv2
                rcases List.mem_cons.mp hkv2 with rfl | h2
                · rfl
                · exact ha kv2 h2
              · intro kv2 hkv2 q hq
                rcases List.mem_cons.mp hkv2 with rfl | h2
                · cases hq
                  exact hrange
                · exact hb2 kv2 h2 q hq
              · intro kv2 hkv2
                rcases List.mem_cons.mp hkv2 with rfl | h2
                · simp
                · exact hc kv2 h2
              · rw [ratKeys, List.map_cons, List.nodup_cons]
                exact ⟨fun hmem => he p hmem (by simp), hd2⟩
              · intro q hq hqseen
                rcases List.mem_cons.mp hq with rfl | h2
                · exact hseen hqseen
                · exact he q h2 (by simp [hqseen])
            · intro ⟨ha, hb2, hc, hd2, he⟩
              have hrest : (buildEvents d (p :: seen) rest).isOk = true := by
                refine hrec.mpr ⟨?_, ?_, ?_, ?_, ?_⟩
                · exact fun kv2 h2 => ha kv2 (by simp [h2])
                · exact fun kv2 h2 q hq => hb2 kv2 (by simp [h2]) q hq
                · exact fun kv2 h2 => hc kv2 (by simp [h2])
                · rw [ratKeys, List.map_cons, List.nodup_cons] at hd2
                  exact hd2.2
                · intro q hq hqin
                  rcases List.mem_cons.mp hqin with rfl | h2
                  · rw [ratKeys, List.map_cons, List.nodup_cons] at hd2
                    exact hd2.1 hq
                  · exact he q (List.mem_cons_of_mem _ hq) h2
              rcases hb : buildEvents d (p :: seen) rest with err | evs
              · rw [hb] at hrest
                simp [Except.isOk, Except.toBool] at hrest
              · simp [Except.isOk, Except.toBool]

theorem mem_keys_iff (p : Rat) (entries : List (JsNum × TValue))
    (hfin : ∀ kv ∈ entries, kv.1.isFinite = true) :
    JsNum.fin p ∈ entries.map Prod.fst ↔ p ∈ ratKeys entries := by
  induction entries with
  | nil => simp [ratKeys]
  | cons kv rest ih =>
    obtain ⟨k, v⟩ := kv
    have hk := hfin (k, v) (by simp)
    match k with
    | JsNum.fin q =>
      simp only [List.map_cons, ratKeys, List.mem_cons]
      constructor
      · rintro (h | h)
        · exact Or.inl (by injection h)
        · exact Or.inr ((ih (fun kv2 h2 => hfin kv2 (by simp [h2]))).mp h)
      · rintro (h | h)
        · exact Or.inl (by rw [h])
        · exact Or.inr ((ih (fun kv2 h2 => hfin kv2 (by simp [h2]))).mpr h)
    | JsNum.nan => simp [JsNum.isFinite] at hk
    | JsNum.inf => simp [JsNum.isFinite] at hk
    | JsNum.negInf => simp [JsNum.isFinite] at hk

theorem nodup_keys_iff (entries : List (JsNum × TValue))
    (hfin : ∀ kv ∈ entries, kv.1.isFinite = true) :
    (entries.map Prod.fst).Nodup ↔ (ratKeys entries).Nodup := by
  induction entries with
  | nil => simp [ratKeys]
  | cons kv rest ih =>
    obtain ⟨k, v⟩ := kv
    have hk := hfin (k, v) (by simp)
    have hrest : ∀ kv2 ∈ rest, kv2.1.isFinite = true :=
      fun kv2 h2 => hfin kv2 (by simp [h2])
    match k with
    | JsNum.fin q =>
      simp only [List.map_cons, ratKeys, List.nodup_cons]
      rw [mem_keys_iff q rest hrest, ih hrest]
      rfl
    | JsNum.nan => simp [JsNum.isFinite] at hk
    | JsNum.inf => simp [JsNum.isFinite] at hk
    | JsNum.negInf => simp [JsNum.isFinite] at hk

theorem specMalformed_false_iff (d : Rat) (record : List (JsNum × TValue)) :
    specMalformed (JsNum.fin d) record = false ↔
      ((¬ d ≤ 0) ∧ record ≠ []
        ∧ (∀ kv ∈ record, kv.1.isFinite = true)
        ∧ (∀ kv ∈ record, ∀ p : Rat, kv.1 = JsNum.fin p → ¬ (p < 0 ∨ 1 < p))
        ∧ (record.map Prod.fst).Nodup
        ∧ (∀ kv ∈ record, kv.2 ≠ TValue.notFunc)) := by
  simp only [specMalformed, Bool.or_eq_false_iff, List.any_eq_false,
    List.isEmpty_eq_false_iff_exists_mem, Bool.not_eq_false', Bool.not_eq_true,
    decide_eq_false_iff_not, decide_eq_true_eq]
  constructor
  · intro h
    obtain ⟨⟨⟨⟨⟨h1, h2⟩, h3⟩, h4⟩, h5⟩, h6⟩ := h
    refine ⟨h1, ?_, ?_, ?_, ?_, ?_⟩
    · rcases h2 with ⟨x, hx⟩
      intro hnil
      rw [hnil] at hx
      cases hx
    · intro kv hkv
      have := h3 kv hkv
      simpa using this
    · intro kv hkv p hp
      have := h4 kv hkv
      rw [hp] at this
      simpa using this
    · simpa using h5
    · intro kv hkv
      have := h6 kv hkv
      match h : kv.2 with
      | TValue.notFunc => rw [h] at this; cases this
      | TValue.func _ _ => simp
  · intro ⟨h1, h2, h3, h4, h5, h6⟩
    refine ⟨⟨⟨⟨⟨h1, ?_⟩, ?_⟩, ?_⟩, ?_⟩, ?_⟩
    · match record, h2 with
      | kv :: rest, _ => exact ⟨kv, by simp⟩
    · intro kv hkv
      simpa using h3 kv hkv
    · intro kv hkv
      match hk : kv.1 with
      | JsNum.fin p =>
        have := h4 kv hkv p hk
        simpa using this
      | JsNum.nan => simp
      | JsNum.inf => simp
      | JsNum.negInf => simp
    · simpa using h5
    · intro kv hkv
      match hk : kv.2 with
      | TValue.notFunc => exact absurd hk (h6 kv hkv)
      | TValue.func _ _ => simp

/-- C9: the `Timeline` constructor rejects its input (throws, modelled
as `Except.error`, constructing no instance) if and only if the input
is malformed in the claimed sense: non-positive or non-finite duration,
empty or null mapping, a non-finite, out-of-range or duplicate fraction
key, or a non-callable mapped value; every well-formed input
constructs successfully. -/
theorem timeline_construct_iff (duration : JsNum) (record : List (JsNum × TValue)) :
    (mkTimeline duration record).isOk = true ↔ specMalformed duration record = false := by
  match duration with
  | JsNum.nan => simp [mkTimeline, specMalformed, Except.isOk, Except.toBool]
  | JsNum.inf => simp [mkTimeline, specMalformed, Except.isOk, Except.toBool]
  | JsNum.negInf => simp [mkTimeline, specMalformed, Except.isOk, Except.toBool]
  | JsNum.fin d =>
    rw [specMalformed_false_iff]
    by_cases hd : d ≤ 0
    · simp [mkTimeline, hd, Except.isOk, Except.toBool]
    · by_cases hemp : record.isEmpty
      · have : record = [] := by simpa [List.isEmpty_iff] using hemp
        subst this
        simp [mkTimeline, hd, Except.isOk, Except.toBool]
      · have hne : record ≠ [] := by
          intro h
          rw [h] at hemp
          simp at hemp
        have hok_iff : (mkTimeline (JsNum.fin d) record).isOk
            = (buildEvents d [] record).isOk := by
          simp only [mkTimeline, if_neg hd, hemp, Bool.false_eq_true, if_false]
          rcases hb : buildEvents d [] record with err | evs <;>
            simp [Except.isOk, Except.toBool]
        rw [hok_iff, buildEvents_isOk]
        constructor
        · intro ⟨ha, hb, hc, hdn, _⟩
          exact ⟨hd, hne, ha, hb, (nodup_keys_iff record ha).mpr hdn, hc⟩
        · intro ⟨_, _, ha, hb, hdn, hc⟩
          exact ⟨ha, hb, hc, (nodup_keys_iff record ha).mp hdn, by simp⟩

/-! ## Timeline processing (C4) -/
theorem map_eq_self_of {α : Type} (l : List α) (f : α → α) (h : ∀ x ∈ l, f x = x) :
    l.map f = l := by
  induction l with
  | nil => rfl
  | cons a t ih =>
    rw [List.map_cons, h a (by simp), ih (fun x hx => h x (by simp [hx]))]

theorem filter_eq_nil_of {α : Type} (l : List α) (p : α → Bool)
    (h : ∀ x ∈ l, p x = false) : l.filter p = [] := by
  rw [List.filter_eq_nil_iff]
  intro x hx
  rw [h x hx]
  simp

theorem ev_set_executed_self (e : ProcessedEvent) (b : Bool) (h : e.executed = b) :
    { e with executed := b } = e := by
  rw [← h]

theorem processEvents_run (last cur : Rat) (evs : List ProcessedEvent)
    (hsort : evs.Pairwise (fun a b => a.tick ≤ b.tick))
    (hnf : ∀ e ∈ evs, e.throws = false)
    (hexec : ∀ e ∈ evs, e.executed = decide ((e.tick : Rat) ≤ last))
    (hlc : last ≤ cur) :
    processEvents last cur evs
      = (evs.map (fun e => { e with executed := decide ((e.tick : Rat) ≤ cur) }),
        (evs.filter (fun e => decide (last < (e.tick : Rat))
            && decide ((e.tick : Rat) ≤ cur))).map (fun e => e.label),
        false) := by
  induction evs with
  | nil => simp [processEvents]
  | cons e es ih =>
    rw [List.pairwise_cons] at hsort
    have he := hexec e (by simp)
    have hnfe := hnf e (by simp)
    have ihr := ih hsort.2 (fun x hx => hnf x (by simp [hx]))
      (fun x hx => hexec x (by simp [hx]))
    by_cases hcur : cur < (e.tick : Rat)
    · -- break: nothing at or after this event can fire
      have hnotyet : ∀ x ∈ e :: es, ¬ (x.tick : Rat) ≤ cur := by
        intro x hx
        rcases List.mem_cons.mp hx with rfl | hxs
        · exact not_le.mpr hcur
        · have h1 : e.tick ≤ x.tick := hsort.1 x hxs
          have h2 : (e.tick : Rat) ≤ (x.tick : Rat) := Int.cast_le.mpr h1
          exact not_le.mpr (lt_of_lt_of_le hcur h2)
      have hmap : (e :: es).map
          (fun x => { x with executed := decide ((x.tick : Rat) ≤ cur) }) = e :: es := by
        refine map_eq_self_of _ _ ?_
        intro x hx
        refine ev_set_executed_self x _ ?_
        rw [hexec x hx]
        have h1 : ¬ (x.tick : Rat) ≤ cur := hnotyet x hx
        have h2 : ¬ (x.tick : Rat) ≤ last := fun hc => h1 (le_trans hc hlc)
        simp [h1, h2]
      have hfil : (e :: es).filter (fun x => decide (last < (x.tick : Rat))
          && decide ((x.tick : Rat) ≤ cur)) = [] := by
        refine filter_eq_nil_of _ _ ?_
        intro x hx
        have := hnotyet x hx
        simp [this]
      rw [hmap, hfil]
      simp [processEvents, hcur]
    · -- the event's tick has been reached
      push_neg at hcur
      by_cases hlast : (e.tick : Rat) ≤ last
      · -- already executed in an earlier call: skipped
        have hexe : e.executed = true := by rw [he]; simp [hlast]
        have hcond : ¬ (¬ e.executed = true ∧ last < (e.tick : Rat)) := by
          simp [hexe]
        have hhead : { e with executed := decide ((e.tick : Rat) ≤ cur) } = e :=
          ev_set_executed_self e _ (by rw [hexe]; simp [le_trans hlast hlc])
        simp only [processEvents, not_lt.mpr hcur, if_false, if_neg hcond, ihr,
          List.map_cons, List.filter_cons]
        rw [hhead]
        have : (decide (last < (e.tick : Rat)) && decide ((e.tick : Rat) ≤ cur)) = false := by
          simp [not_lt.mpr hlast]
        rw [this]
        simp [not_lt.mpr hcur]
      · -- fires now
        push_neg at hlast
        have hexe : e.executed = false := by rw [he]; simp [not_le.mpr hlast]
        have hcond : (¬ e.executed = true ∧ last < (e.tick : Rat)) := by
          simp [hexe, hlast]
        simp only [processEvents, not_lt.mpr hcur, if_false, if_pos hcond, hnfe,
          Bool.false_eq_true, ihr, List.map_cons, List.filter_cons]
        have hfc : (decide (last < (e.tick : Rat)) && decide ((e.tick : Rat) ≤ cur)) = true := by
          simp [hlast, hcur]
        have hdc : decide ((e.tick : Rat) ≤ cur) = true := by simp [hcur]
        rw [hfc, hdc]
        simp

theorem processTimeline_run (tl : Timeline) (t : Rat)
    (hsort : tl.sortedEvents.Pairwise (fun a b => a.tick ≤ b.tick))
    (hnf : ∀ e ∈ tl.sortedEvents, e.throws = false)
    (hexec : ∀ e ∈ tl.sortedEvents,
      e.executed = decide ((e.tick : Rat) ≤ tl.lastProcessedTick))
    (hle : tl.lastProcessedTick ≤ clampTick tl.duration t) :
    processTimeline tl (JsNum.fin t)
      = ({ tl with
            sortedEvents := tl.sortedEvents.map (fun e =>
              { e with executed := decide ((e.tick : Rat) ≤ clampTick tl.duration t) }),
            lastProcessedTick := clampTick tl.duration t },
        (tl.sortedEvents.filter (fun e =>
            decide (tl.lastProcessedTick < (e.tick : Rat))
              && decide ((e.tick : Rat) ≤ clampTick tl.duration t))).map (fun e => e.label),
        false) := by
  have hpe := processEvents_run tl.lastProcessedTick (clampTick tl.duration t)
    tl.sortedEvents hsort hnf hexec hle
  simp only [processTimeline, not_lt.mpr hle, if_false, hpe, Bool.false_eq_true]

theorem filter_label_map_update (evs : List ProcessedEvent)
    (f : ProcessedEvent → ProcessedEvent)
    (hf : ∀ e, (f e).tick = e.tick ∧ (f e).label = e.label) (a b : Rat) :
    ((evs.map f).filter (fun e => decide (a < (e.tick : Rat))
        && decide ((e.tick : Rat) ≤ b))).map (fun e => e.label)
      = (evs.filter (fun e => decide (a < (e.tick : Rat))
          && decide ((e.tick : Rat) ≤ b))).map (fun e => e.label) := by
  induction evs with
  | nil => rfl
  | cons e es ih =>
    rw [List.map_cons, List.filter_cons, List.filter_cons, (hf e).1]
    by_cases hc : (decide (a < (e.tick : Rat)) && decide ((e.tick : Rat) ≤ b)) = true
    · rw [hc]
      simp only [if_true, List.map_cons, ih, (hf e).2]
    · rw [Bool.not_eq_true] at hc
      rw [hc]
      simp only [Bool.false_eq_true, if_false, ih]

theorem windows_map (d : Rat) (evs : List ProcessedEvent)
    (f : ProcessedEvent → ProcessedEvent)
    (hf : ∀ e, (f e).tick = e.tick ∧ (f e).label = e.label) :
    ∀ (ts : List Rat) (last : Rat),
    windows d (evs.map f) last ts = windows d evs last ts := by
  intro ts
  induction ts with
  | nil => intro last; rfl
  | cons t ts ih =>
    intro last
    rw [windows, windows, filter_label_map_update evs f hf, ih]

theorem runTimeline_run (ts : List Rat) : ∀ (tl : Timeline),
    tl.sortedEvents.Pairwise (fun a b => a.tick ≤ b.tick) →
    (∀ e ∈ tl.sortedEvents, e.throws = false) →
    (∀ e ∈ tl.sortedEvents,
      e.executed = decide ((e.tick : Rat) ≤ tl.lastProcessedTick)) →
    List.Chain (· ≤ ·) tl.lastProcessedTick (ts.map (clampTick tl.duration)) →
    (runTimeline tl ts).2 = windows tl.duration tl.sortedEvents tl.lastProcessedTick ts
    ∧ (runTimeline tl ts).1.duration = tl.duration
    ∧ (runTimeline tl ts).1.lastProcessedTick
        = lastClamp tl.duration tl.lastProcessedTick ts
    ∧ (runTimeline tl ts).1.sortedEvents
        = tl.sortedEvents.map (fun e =>
            { e with executed :=
                decide ((e.tick : Rat) ≤ lastClamp tl.duration tl.lastProcessedTick ts) }) := by
  induction ts with
  | nil =>
    intro tl _ _ hexec _
    refine ⟨rfl, rfl, rfl, ?_⟩
    show tl.sortedEvents = _
    refine (map_eq_self_of _ _ ?_).symm
    intro e he
    show { e with executed := _ } = e
    exact ev_set_executed_self e _ (hexec e he)
  | cons t ts ih =>
    intro tl hsort hnf hexec hchain
    rcases List.chain_cons.mp (by simpa using hchain) with ⟨hle, hrest⟩
    have hstep := processTimeline_run tl t hsort hnf hexec hle
    set c1 := clampTick tl.duration t with hc1
    set f1 : ProcessedEvent → ProcessedEvent :=
      fun e => { e with executed := decide ((e.tick : Rat) ≤ c1) } with hf1
    set tl1 : Timeline :=
      { tl with sortedEvents := tl.sortedEvents.map f1, lastProcessedTick := c1 } with htl1
    have hdur1 : tl1.duration = tl.duration := rfl
    have hsort1 : tl1.sortedEvents.Pairwise (fun a b => a.tick ≤ b.tick) := by
      simp only [htl1]
      rw [List.pairwise_map]
      exact hsort
    have hnf1 : ∀ e ∈ tl1.sortedEvents, e.throws = false := by
      intro e he
      simp only [htl1, List.mem_map] at he
      rcases he with ⟨a, ha, rfl⟩
      exact hnf a ha
    have hexec1 : ∀ e ∈ tl1.sortedEvents,
        e.executed = decide ((e.tick : Rat) ≤ tl1.lastProcessedTick) := by
      intro e he
      simp only [htl1, List.mem_map] at he
      rcases he with ⟨a, ha, rfl⟩
      rfl
    have hchain1 : List.Chain (· ≤ ·) tl1.lastProcessedTick
        (ts.map (clampTick tl1.duration)) := by
      simpa [htl1] using hrest
    have hrec := ih tl1 hsort1 hnf1 hexec1 hchain1
    have hrun : runTimeline tl (t :: ts)
        = ((runTimeline tl1 ts).1,
           (tl.sortedEvents.filter (fun e =>
              decide (tl.lastProcessedTick < (e.tick : Rat))
                && decide ((e.tick : Rat) ≤ c1))).map (fun e => e.label)
             :: (runTimeline tl1 ts).2) := by
      simp only [runTimeline, hstep]
    have hpres : ∀ e, (f1 e).tick = e.tick ∧ (f1 e).label = e.label :=
      fun e => ⟨rfl, rfl⟩
    refine ⟨?_, ?_, ?_, ?_⟩
    · rw [hrun]
      simp only [windows]
      refine congrArg _ ?_
      rw [hrec.1]
      simp only [htl1]
      exact windows_map tl.duration tl.sortedEvents f1 hpres ts c1
    · rw [hrun]
      exact hrec.2.1.trans hdur1
    · rw [hrun]
      rw [hrec.2.2.1]
      simp only [htl1, lastClamp]
    · rw [hrun]
      rw [hrec.2.2.2]
      have hev1 : tl1.sortedEvents = tl.sortedEvents.map f1 := rfl
      rw [hev1, List.map_map]
      have hlc : lastClamp tl1.duration tl1.lastProcessedTick ts
          = lastClamp tl.duration tl.lastProcessedTick (t :: ts) := by
        simp only [htl1, lastClamp]
      rw [hlc]
      apply List.map_congr_left
      intro e _
      rfl

theorem buildEvents_mem (d : Rat) :
    ∀ (entries : List (JsNum × TValue)) (seen : List Rat)
      (evs : List ProcessedEvent),
    buildEvents d seen entries = Except.ok evs →
    ∀ e ∈ evs, e.executed = false ∧ 0 ≤ e.percentage ∧ e.percentage ≤ 1
      ∧ e.tick = ⌊e.percentage * d⌋ := by
  intro entries
  induction entries with
  | nil =>
    intro seen evs h e he
    simp only [buildEvents, Except.ok.injEq] at h
    rw [← h] at he
    exact absurd he (List.not_mem_nil e)
  | cons kv rest ih =>
    intro seen evs h e he
    obtain ⟨k, v⟩ := kv
    simp only [buildEvents] at h
    match k with
    | JsNum.nan => exact absurd h (by simp)
    | JsNum.inf => exact absurd h (by simp)
    | JsNum.negInf => exact absurd h (by simp)
    | JsNum.fin p =>
      simp only at h
      by_cases hr : p < 0 ∨ 1 < p
      · rw [if_pos hr] at h
        exact absurd h (by simp)
      · rw [if_neg hr] at h
        push_neg at hr
        by_cases hs : p ∈ seen
        · rw [if_pos hs] at h
          exact absurd h (by simp)
        · rw [if_neg hs] at h
          match v with
          | TValue.notFunc => exact absurd h (by simp)
          | TValue.func label throws =>
            simp only at h
            match hrec : buildEvents d (p :: seen) rest with
            | Except.error err => rw [hrec] at h; exact absurd h (by simp)
            | Except.ok evs' =>
              rw [hrec] at h
              simp only [Except.ok.injEq] at h
              rw [← h] at he
              rcases List.mem_cons.mp he with rfl | htail
              · exact ⟨rfl, hr.1, hr.2, rfl⟩
              · exact ih (p :: seen) evs' hrec e htail

theorem mkTimeline_props (duration : JsNum) (record : List (JsNum × TValue))
    (tl : Timeline) (hmk : mkTimeline duration record = Except.ok tl) :
    0 < tl.duration ∧ tl.lastProcessedTick = -1
    ∧ tl.sortedEvents.Pairwise (fun a b => a.tick ≤ b.tick)
    ∧ ∀ e ∈ tl.sortedEvents,
        e.executed = false ∧ 0 ≤ e.tick ∧ (e.tick : Rat) ≤ tl.duration := by
  match duration with
  | JsNum.nan => exact absurd hmk (by simp [mkTimeline])
  | JsNum.inf => exact absurd hmk (by simp [mkTimeline])
  | JsNum.negInf => exact absurd hmk (by simp [mkTimeline])
  | JsNum.fin d =>
    simp only [mkTimeline] at hmk
    by_cases hd : d ≤ 0
    · rw [if_pos hd] at hmk
      exact absurd hmk (by simp)
    · rw [if_neg hd] at hmk
      push_neg at hd
      by_cases hrec : record.isEmpty
      · rw [if_pos hrec] at hmk
        exact absurd hmk (by simp)
      · rw [if_neg hrec] at hmk
        match hbe : buildEvents d [] record with
        | Except.error err => rw [hbe] at hmk; exact absurd hmk (by simp)
        | Except.ok evs =>
          rw [hbe] at hmk
          simp only [Except.ok.injEq] at hmk
          have hmem := buildEvents_mem d record [] evs hbe
          subst hmk
          refine ⟨hd, rfl, ?_, ?_⟩
          · have hsorted : (evs.insertionSort eventLE).Pairwise eventLE :=
              List.sorted_insertionSort eventLE evs
            exact hsorted.imp (fun {a b} hab => by
              rcases hab with h | ⟨h, _⟩
              · exact le_of_lt h
              · exact le_of_eq h)
          · intro e he
            have he' : e ∈ evs := (List.perm_insertionSort eventLE evs).mem_iff.mp he
            obtain ⟨hex, hp0, hp1, ht⟩ := hmem e he'
            refine ⟨hex, ?_, ?_⟩
            · rw [ht]
              have : (0 : Rat) ≤ e.percentage * d :=
                mul_nonneg hp0 (le_of_lt hd)
              exact Int.le_floor.mpr (by exact_mod_cast this)
            · rw [ht]
              have h1 : ((⌊e.percentage * d⌋ : Int) : Rat) ≤ e.percentage * d :=
                Int.floor_le _
              have h2 : e.percentage * d ≤ d :=
                mul_le_of_le_one_left (le_of_lt hd) hp1
              exact h1.trans h2

theorem windows_getD (d : Rat) (evs : List ProcessedEvent) :
    ∀ (ts : List Rat) (last : Rat) (i : Nat), i < ts.length →
    (windows d evs last ts).getD i []
      = (evs.filter (fun e =>
          decide (lastClamp d last (ts.take i) < (e.tick : Rat))
            && decide ((e.tick : Rat) ≤ clampTick d (ts.getD i 0)))).map
          (fun e => e.label) := by
  intro ts
  induction ts with
  | nil => intro last i hi; exact absurd hi (by simp)
  | cons t ts ih =>
    intro last i hi
    match i with
    | 0 => rfl
    | Nat.succ j =>
      have hj : j < ts.length := by
        simp only [List.length_cons] at hi; omega
      have := ih (clampTick d t) j hj
      simpa [windows, lastClamp] using this

theorem lastClamp_take_eq (d : Rat) :
    ∀ (ts : List Rat) (last : Rat) (i : Nat), i ≤ ts.length →
    lastClamp d last (ts.take i)
      = if i = 0 then last else clampTick d (ts.getD (i - 1) 0) := by
  intro ts
  induction ts with
  | nil =>
    intro last i hi
    have : i = 0 := by simpa using hi
    subst this
    rfl
  | cons t ts ih =>
    intro last i hi
    match i with
    | 0 => rfl
    | Nat.succ j =>
      have hj : j ≤ ts.length := by
        simp only [List.length_cons] at hi; omega
      have hih := ih (clampTick d t) j hj
      simp only [List.take_succ_cons, lastClamp, hih]
      by_cases hj0 : j = 0
      · subst hj0; rfl
      · rw [if_neg hj0, if_neg (Nat.succ_ne_zero j)]
        match j, hj0 with
        | Nat.succ k, _ => rfl

theorem chain_clamp_mono (d : Rat) (ts : List Rat) (last : Rat)
    (hchain : List.Chain (· ≤ ·) last (ts.map (clampTick d))) :
    ∀ j k, j ≤ k → k < ts.length →
    clampTick d (ts.getD j 0) ≤ clampTick d (ts.getD k 0) := by
  intro j k hjk hk
  have hpair : (last :: ts.map (clampTick d)).Pairwise (· ≤ ·) :=
    List.chain_iff_pairwise.mp hchain
  have hpair' : (ts.map (clampTick d)).Pairwise (· ≤ ·) :=
    (List.pairwise_cons.mp hpair).2
  rcases Nat.lt_or_ge j k with hlt | hge
  · have hjlen : j < (ts.map (clampTick d)).length := by
      simp only [List.length_map]; omega
    have hklen : k < (ts.map (clampTick d)).length := by
      simp only [List.length_map]; omega
    have := (List.pairwise_iff_getElem.mp hpair') j k hjlen hklen hlt
    have hgj : (ts.map (clampTick d))[j] = clampTick d (ts.getD j 0) := by
      rw [List.getElem_map]
      congr 1
      exact (List.getD_eq_getElem ts 0 (by omega)).symm
    have hgk : (ts.map (clampTick d))[k] = clampTick d (ts.getD k 0) := by
      rw [List.getElem_map]
      congr 1
      exact (List.getD_eq_getElem ts 0 (by omega)).symm
    rw [hgj, hgk] at this
    exact this
  · have : j = k := le_antisymm hjk hge
    subst this
    exact le_refl _

theorem lastClamp_lt_iff (d : Rat) (ts : List Rat) (last : Rat)
    (hchain : List.Chain (· ≤ ·) last (ts.map (clampTick d)))
    (i : Nat) (hi : i < ts.length) (x : Rat) (hx : last < x) :
    (lastClamp d last (ts.take i) < x
      ↔ ∀ j, j < i → clampTick d (ts.getD j 0) < x) := by
  rw [lastClamp_take_eq d ts last i (le_of_lt hi)]
  by_cases hi0 : i = 0
  · subst hi0
    simp only [if_true]
    exact ⟨fun _ j hj => absurd hj (Nat.not_lt_zero j), fun _ => hx⟩
  · rw [if_neg hi0]
    constructor
    · intro h j hj
      have hmono := chain_clamp_mono d ts last hchain j (i - 1)
        (by omega) (by omega)
      exact lt_of_le_of_lt hmono h
    · intro h
      exact h (i - 1) (by omega)

theorem mem_label_filter (evs : List ProcessedEvent)
    (hnd : (evs.map (fun e => e.label)).Nodup)
    (e : ProcessedEvent) (he : e ∈ evs) (p : ProcessedEvent → Bool) :
    (e.label ∈ (evs.filter p).map (fun e => e.label) ↔ p e = true) := by
  constructor
  · intro h
    rcases List.mem_map.mp h with ⟨e', he', hlab⟩
    rcases List.mem_filter.mp he' with ⟨hmem', hp'⟩
    have hinj := List.inj_on_of_nodup_map hnd
    have : e' = e := hinj hmem' he hlab
    rw [← this]
    exact hp'
  · intro h
    exact List.mem_map.mpr ⟨e, List.mem_filter.mpr ⟨he, h⟩, rfl⟩

/-- **C4.** For every timeline produced by the constructor (with
non-throwing event functions and distinct labels) and every forward
sequence of finite `process` calls (clamped ticks non-decreasing): an
event fires at call `i` iff its firing tick `⌊fraction * duration⌋` is
reached by call `i`'s clamped tick and was not reached by any earlier
call — i.e. exactly once, at the first call whose tick reaches or passes
it, and never again by later forward calls.  Moreover `reset` restores
the freshly constructed timeline, and a backward call (clamped tick
below the recorded cursor) behaves exactly as on the fresh timeline: all
events are eligible again from tick 0 forward. -/
theorem timeline_fires_once (duration : JsNum) (record : List (JsNum × TValue))
    (tl0 : Timeline) (ts : List Rat)
    (hmk : mkTimeline duration record = Except.ok tl0)
    (hnf : ∀ e ∈ tl0.sortedEvents, e.throws = false)
    (hnd : (tl0.sortedEvents.map (fun e => e.label)).Nodup)
    (hmono : (ts.map (clampTick tl0.duration)).Chain' (· ≤ ·)) :
    (∀ e ∈ tl0.sortedEvents, ∀ i, i < ts.length →
      (e.label ∈ (runTimeline tl0 ts).2.getD i []
        ↔ ((e.tick : Rat) ≤ clampTick tl0.duration (ts.getD i 0)
            ∧ ∀ j, j < i → clampTick tl0.duration (ts.getD j 0) < (e.tick : Rat))))
    ∧ resetTimeline (runTimeline tl0 ts).1 = tl0
    ∧ (∀ t : Rat, clampTick tl0.duration t < (runTimeline tl0 ts).1.lastProcessedTick →
        processTimeline (runTimeline tl0 ts).1 (JsNum.fin t)
          = processTimeline tl0 (JsNum.fin t)) := by
  obtain ⟨hd, hlast0, hsort, hprops⟩ := mkTimeline_props duration record tl0 hmk
  have htick0 : ∀ e ∈ tl0.sortedEvents, (0 : Rat) ≤ (e.tick : Rat) := by
    intro e he
    exact_mod_cast (hprops e he).2.1
  have hexec0 : ∀ e ∈ tl0.sortedEvents,
      e.executed = decide ((e.tick : Rat) ≤ tl0.lastProcessedTick) := by
    intro e he
    rw [(hprops e he).1, hlast0]
    symm
    rw [decide_eq_false_iff_not]
    intro hle
    have := htick0 e he
    linarith
  have hclamp0 : ∀ t : Rat, (0 : Rat) ≤ clampTick tl0.duration t :=
    fun t => le_max_left 0 _
  have hchain : List.Chain (· ≤ ·) tl0.lastProcessedTick
      (ts.map (clampTick tl0.duration)) := by
    rw [hlast0]
    cases ts with
    | nil => exact List.Chain.nil
    | cons t ts' =>
      rw [List.map_cons]
      refine List.Chain.cons ?_ ?_
      · have := hclamp0 t
        linarith
      · have h2 := hmono
        rw [List.map_cons] at h2
        exact h2
  have hrun := runTimeline_run ts tl0 hsort hnf hexec0 hchain
  have hreset : resetTimeline (runTimeline tl0 ts).1 = tl0 := by
    have hcomp : ∀ (a b : Timeline), a.duration = b.duration →
        a.sortedEvents = b.sortedEvents →
        a.lastProcessedTick = b.lastProcessedTick → a = b := by
      intro a b h1 h2 h3
      cases a
      cases b
      simp_all
    apply hcomp
    · show (runTimeline tl0 ts).1.duration = tl0.duration
      exact hrun.2.1
    · show (runTimeline tl0 ts).1.sortedEvents.map
        (fun e => { e with executed := false }) = tl0.sortedEvents
      rw [hrun.2.2.2, List.map_map]
      have hcg : tl0.sortedEvents.map
          ((fun e => { e with executed := false }) ∘ (fun e =>
            { e with executed := decide ((e.tick : Rat)
                ≤ lastClamp tl0.duration tl0.lastProcessedTick ts) }))
          = tl0.sortedEvents.map (fun e => { e with executed := false }) :=
        List.map_congr_left (fun e _ => rfl)
      rw [hcg]
      apply map_eq_self_of
      intro e he
      exact ev_set_executed_self e false (hprops e he).1
    · show (-1 : Rat) = tl0.lastProcessedTick
      exact hlast0.symm
  refine ⟨?_, hreset, ?_⟩
  · intro e he i hi
    rw [hrun.1, windows_getD tl0.duration tl0.sortedEvents ts tl0.lastProcessedTick i hi,
      mem_label_filter tl0.sortedEvents hnd e he]
    simp only [Bool.and_eq_true, decide_eq_true_eq]
    have hx : tl0.lastProcessedTick < (e.tick : Rat) := by
      rw [hlast0]
      have := htick0 e he
      linarith
    rw [lastClamp_lt_iff tl0.duration ts tl0.lastProcessedTick hchain i hi
      (e.tick : Rat) hx]
    exact and_comm
  · intro t ht
    have hFd : (runTimeline tl0 ts).1.duration = tl0.duration := hrun.2.1
    have hno : ¬ (clampTick tl0.duration t < tl0.lastProcessedTick) := by
      rw [hlast0]
      have := hclamp0 t
      linarith
    simp only [processTimeline, hFd, hreset]
    rw [if_pos ht, if_neg hno]

theorem timeline_fires_once_witness :
    (runTimeline tlW [10, 17, 20]).2 = [[0, 1], [], [2]]
    ∧ resetTimeline (runTimeline tlW [10, 17, 20]).1 = tlW := by
  refine ⟨by decide, ?_⟩
  have hmono : (([10, 17, 20] : List Rat).map (clampTick tlW.duration)).Chain'
      (· ≤ ·) := by
    have hm : clampTick tlW.duration 10 = 10 ∧ clampTick tlW.duration 17 = 17
        ∧ clampTick tlW.duration 20 = 20 := by decide
    simp only [List.map_cons, List.map_nil, hm.1, hm.2.1, hm.2.2]
    exact List.Chain.cons (by norm_num) (List.Chain.cons (by norm_num) List.Chain.nil)
  exact (timeline_fires_once (JsNum.fin 20) recW tlW [10, 17, 20]
    (by norm_num [mkTimeline, buildEvents, recW, tlW, List.insertionSort,
      List.orderedInsert, eventLE])
    (by decide) (by decide) hmono).2.1

end TL
